import Mathlib

/-!
Verification of the site-auditing crawler against its specification.

The TypeScript sources are shallowly embedded: strings are lists of
characters (`Str`), the platform WHATWG `URL` class is modelled by an
executable parser `Crawler.parseUrl` covering the fragment of URL syntax the
crawler manipulates (`scheme://host[:port]path[?query][#fragment]`, ASCII
input, hosts of letters/digits/dots/hyphens, no userinfo, no dot-segments;
query strings are decoded to key/value pairs exactly as `URLSearchParams`
does), and wall-clock reads (`new Date()`) become an explicit `now`
parameter measured in milliseconds since the epoch.
-/

namespace Crawler

/-- Strings as lists of characters; all reasoning is at the character level. -/
abbrev Str := List Char

/-- ASCII letter (either case), by code point. -/
def isAsciiAlpha (c : Char) : Bool :=
  (97 ≤ c.toNat && c.toNat ≤ 122) || (65 ≤ c.toNat && c.toNat ≤ 90)

/-- ASCII digit, by code point. -/
def isAsciiDigit (c : Char) : Bool :=
  48 ≤ c.toNat && c.toNat ≤ 57

/-- ASCII letter or digit. -/
def isAsciiAlphaNum (c : Char) : Bool :=
  isAsciiAlpha c || isAsciiDigit c

/-- ASCII lower-casing of one character (the crawler only lowercases ASCII data). -/
def asciiLower (c : Char) : Char :=
  if 65 ≤ c.toNat ∧ c.toNat ≤ 90 then Char.ofNat (c.toNat + 32) else c

/-- ASCII lower-casing of a string, modelling JavaScript `toLowerCase` on ASCII input. -/
def toLowerStr (s : Str) : Str := s.map asciiLower

/-- Digits of a natural number, most significant first. -/
def natDigits (n : Nat) : Str :=
  if h : n < 10 then [Char.ofNat (48 + n)]
  else natDigits (n / 10) ++ [Char.ofNat (48 + n % 10)]
decreasing_by exact Nat.div_lt_self (by omega) (by omega)

/-- Numeric value of a digit string (JavaScript parses ports this way). -/
def digitsToNat (s : Str) : Nat :=
  s.foldl (fun a c => a * 10 + (c.toNat - 48)) 0

/-- Value of one hexadecimal digit, either case. -/
def hexDigitVal (c : Char) : Option Nat :=
  if 48 ≤ c.toNat ∧ c.toNat ≤ 57 then some (c.toNat - 48)
  else if 97 ≤ c.toNat ∧ c.toNat ≤ 102 then some (c.toNat - 87)
  else if 65 ≤ c.toNat ∧ c.toNat ≤ 70 then some (c.toNat - 55)
  else none

/-- Upper-case hexadecimal digit for a value below 16. -/
def hexDigitUpper (n : Nat) : Char :=
  if n < 10 then Char.ofNat (48 + n) else Char.ofNat (55 + n)

/-- JavaScript `String.prototype.includes`: `strContains s pat` is true when
`pat` occurs contiguously inside `s`. -/
def strContains (s pat : Str) : Bool :=
  match s with
  | [] => pat.isPrefixOf ([] : Str)
  | c :: cs => pat.isPrefixOf (c :: cs) || strContains cs pat

/-- Split a string at the first character satisfying `stop`; the first
component is the longest prefix of characters with `stop c = false`. -/
def spanNot (stop : Char → Bool) : Str → Str × Str
  | [] => ([], [])
  | c :: cs =>
    if stop c then ([], c :: cs)
    else
      let p := spanNot stop cs
      (c :: p.1, p.2)

/-- JavaScript `String.prototype.split` on a single separator character:
empty pieces are kept, and the empty string yields one empty piece. -/
def splitChar (sep : Char) : Str → List Str
  | [] => [[]]
  | c :: cs =>
    if c = sep then [] :: splitChar sep cs
    else
      match splitChar sep cs with
      | [] => [[c]]
      | p :: ps => (c :: p) :: ps

/-- Join pieces with a separator character (inverse of `splitChar` for
separator-free pieces). -/
def joinSep (sep : Char) : List Str → Str
  | [] => []
  | [p] => p
  | p :: q :: ps => p ++ sep :: joinSep sep (q :: ps)

/-- Characters the `application/x-www-form-urlencoded` serializer leaves as-is. -/
def formUnreservedOk (c : Char) : Bool :=
  isAsciiAlphaNum c || c = '*' || c = '-' || c = '.' || c = '_'

/-- `application/x-www-form-urlencoded` encoding of one ASCII character,
as produced by `URLSearchParams.toString`. -/
def formEncodeChar (c : Char) : Str :=
  if formUnreservedOk c then [c]
  else if c = ' ' then ['+']
  else ['%', hexDigitUpper (c.toNat / 16), hexDigitUpper (c.toNat % 16)]

/-- `application/x-www-form-urlencoded` encoding of an ASCII string. -/
def formEncodeStr (s : Str) : Str :=
  (s.map formEncodeChar).flatten

/-- `application/x-www-form-urlencoded` decoding: `+` becomes a space, a valid
percent escape becomes its (ASCII) character, an invalid `%` stays literal.
Returns `none` on escapes above 0x7F, keeping the model inside ASCII. -/
def percentDecode : Str → Option Str
  | [] => some []
  | c :: cs =>
    if c = '+' then (percentDecode cs).map (fun r => ' ' :: r)
    else if c = '%' then
      match cs with
      | c1 :: c2 :: cs2 =>
        match hexDigitVal c1, hexDigitVal c2 with
        | some h1, some h2 =>
          if h1 * 16 + h2 < 128 then
            (percentDecode cs2).map (fun r => Char.ofNat (h1 * 16 + h2) :: r)
          else none
        | _, _ => (percentDecode (c1 :: c2 :: cs2)).map (fun r => '%' :: r)
      | [c1] => (percentDecode [c1]).map (fun r => '%' :: r)
      | [] => some ['%']
    else (percentDecode cs).map (fun r => c :: r)

/-- Decode one `key=value` piece of a query string as `URLSearchParams` does:
the key is everything before the first `=`, the value the rest. -/
def parsePair (piece : Str) : Option (Str × Str) :=
  let p := spanNot (fun c => c = '=') piece
  match p.2 with
  | _ :: rest =>
    match percentDecode p.1, percentDecode rest with
    | some k, some v => some (k, v)
    | _, _ => none
  | [] => (percentDecode p.1).map (fun k => (k, ([] : Str)))

/-- Decode every piece, failing if any piece fails. -/
def parsePairs : List Str → Option (List (Str × Str))
  | [] => some []
  | p :: ps =>
    match parsePair p, parsePairs ps with
    | some a, some rest => some (a :: rest)
    | _, _ => none

/-- `URLSearchParams` parsing of a raw query string (without the `?`):
split on `&`, drop empty pieces, decode each piece. -/
def parseQuery (q : Str) : Option (List (Str × Str)) :=
  parsePairs ((splitChar '&' q).filter (fun p => p ≠ []))

/-- `URLSearchParams.toString`: encode each pair as `key=value`, join with `&`. -/
def encodeQuery (pairs : List (Str × Str)) : Str :=
  joinSep '&' (pairs.map (fun p => formEncodeStr p.1 ++ '=' :: formEncodeStr p.2))

/-- The WHATWG `URL` record as the crawler observes it: canonical scheme and
host (lower-case), optional non-default port, raw path, decoded query pairs
(`none` when the URL has no `?`), raw fragment. -/
structure Url where
  scheme : Str
  host : Str
  port : Option Nat
  path : Str
  query : Option (List (Str × Str))
  fragment : Option Str
deriving DecidableEq, Repr

/-- Scheme characters after the first (letters, digits, `+`, `-`, `.`). -/
def schemeCharOk (c : Char) : Bool :=
  isAsciiAlphaNum c || c = '+' || c = '-' || c = '.'

/-- A valid scheme: non-empty, starts with a letter. -/
def schemeOk : Str → Bool
  | [] => false
  | c :: rest => isAsciiAlpha c && rest.all schemeCharOk

/-- Host characters accepted by the model (canonical lower-case hosts). -/
def hostCharOk (c : Char) : Bool :=
  (97 ≤ c.toNat && c.toNat ≤ 122) || isAsciiDigit c || c = '.' || c = '-'

/-- Path characters the WHATWG serializer keeps verbatim (the model rejects
characters the browser would percent-encode). -/
def pathCharOk (c : Char) : Bool :=
  isAsciiAlphaNum c || c = '!' || c = '$' || c = '&' || c = '(' || c = ')' ||
    c = '*' || c = '+' || c = ',' || c = '-' || c = '.' || c = '/' || c = ':' ||
    c = ';' || c = '=' || c = '@' || c = '_' || c = '~' || c = '%' ||
    c = Char.ofNat 39

/-- Raw query characters kept verbatim by the browser (printable ASCII minus
the characters the query encoder escapes). -/
def queryCharOk (c : Char) : Bool :=
  (33 ≤ c.toNat && c.toNat ≤ 126) &&
    !(c = '"' || c = '<' || c = '>' || c = Char.ofNat 39)

/-- Fragment characters kept verbatim by the browser. -/
def fragCharOk (c : Char) : Bool :=
  (33 ≤ c.toNat && c.toNat ≤ 126) &&
    !(c = '"' || c = '<' || c = '>' || c = Char.ofNat 96)

/-- Split `scheme://rest` at the first colon, requiring the `//`. -/
def splitScheme : Str → Option (Str × Str)
  | [] => none
  | c :: cs =>
    if c = ':' then
      match cs with
      | '/' :: '/' :: rest => some ([], rest)
      | _ => none
    else
      match splitScheme cs with
      | some p => some (c :: p.1, p.2)
      | none => none

/-- Default ports removed by the WHATWG parser. -/
def defaultPort (scheme : Str) : Option Nat :=
  if scheme = ("http").toList then some 80
  else if scheme = ("https").toList then some 443
  else if scheme = ("ftp").toList then some 21
  else if scheme = ("ws").toList then some 80
  else if scheme = ("wss").toList then some 443
  else none

/-- Split an authority into host and optional port; the port must be a
non-empty digit string at most 65535. -/
def splitHostPort (auth : Str) : Option (Str × Option Nat) :=
  let p := spanNot (fun c => c = ':') auth
  match p.2 with
  | [] => some (p.1, none)
  | _ :: portRaw =>
    if portRaw ≠ [] ∧ portRaw.all isAsciiDigit = true ∧ digitsToNat portRaw ≤ 65535 then
      some (p.1, some (digitsToNat portRaw))
    else none

/-- Parse the part after the path: optional `?query`, optional `#fragment`. -/
def parseFragPart : Str → Option (Option Str)
  | [] => some none
  | c :: f =>
    if c = '#' then if f.all fragCharOk then some (some f) else none
    else none

/-- Parse query-then-fragment from the remainder after the path. -/
def parseQueryPart (rest : Str) : Option (Option (List (Str × Str)) × Option Str) :=
  match rest with
  | '?' :: qf =>
    let p := spanNot (fun c => c = '#') qf
    if p.1.all queryCharOk then
      match parseQuery p.1, parseFragPart p.2 with
      | some pairs, some frag => some (some pairs, frag)
      | _, _ => none
    else none
  | other => (parseFragPart other).map (fun frag => ((none : Option (List (Str × Str))), frag))

/-- Model of `new URL(s)` on the ASCII fragment of URL syntax the crawler
manipulates; `none` models the constructor throwing. -/
def parseUrl (s : Str) : Option Url :=
  if ¬ (s.all (fun c => c.toNat < 128) = true) then none else
  match splitScheme s with
  | none => none
  | some (schRaw, rest) =>
    if ¬ (schemeOk schRaw = true) then none else
    let scheme := toLowerStr schRaw
    let p1 := spanNot (fun c => c = '/' || c = '?' || c = '#') rest
    if p1.1.any (fun c => c = '@' || c = '[' || c = ']') then none else
    match splitHostPort p1.1 with
    | none => none
    | some (hostRaw, portRaw) =>
      let host := toLowerStr hostRaw
      if ¬ (host ≠ [] ∧ host.all hostCharOk = true) then none else
      let port := match portRaw with
        | none => none
        | some n => if defaultPort scheme = some n then none else some n
      let p2 := spanNot (fun c => c = '?' || c = '#') p1.2
      let path := if p2.1 = [] then ['/'] else p2.1
      if ¬ (path.all pathCharOk = true) then none else
      if ¬ ((splitChar '/' path).all (fun seg => seg ≠ ['.'] ∧ seg ≠ ['.', '.']) = true)
      then none else
      match parseQueryPart p2.2 with
      | none => none
      | some (query, fragment) =>
        some { scheme := scheme, host := host, port := port, path := path,
               query := query, fragment := fragment }

/-- The canonical-form invariant every record produced by `parseUrl`
satisfies; it is exactly what re-parsing a serialization needs. -/
def UrlValid (u : Url) : Prop :=
  schemeOk u.scheme = true ∧ toLowerStr u.scheme = u.scheme ∧
  u.host ≠ [] ∧ u.host.all hostCharOk = true ∧
  (∀ n, u.port = some n → n ≤ 65535 ∧ ¬ defaultPort u.scheme = some n) ∧
  u.path ≠ [] ∧ u.path.head? = some '/' ∧
  u.path.all pathCharOk = true ∧
  (splitChar '/' u.path).all (fun seg => decide (seg ≠ ['.'] ∧ seg ≠ ['.', '.'])) = true ∧
  (∀ q, u.query = some q → ∀ p ∈ q, (∀ c ∈ p.1, c.toNat < 128) ∧ (∀ c ∈ p.2, c.toNat < 128)) ∧
  (∀ f, u.fragment = some f → f.all fragCharOk = true)

/-- WHATWG serialization (`url.toString()`) of the modelled record. -/
def serializeUrl (u : Url) : Str :=
  u.scheme ++ ':' :: '/' :: '/' :: u.host ++
    (match u.port with | none => [] | some n => ':' :: natDigits n) ++
    u.path ++
    (match u.query with | none => [] | some pairs => '?' :: encodeQuery pairs) ++
    (match u.fragment with | none => [] | some f => '#' :: f)

/-- Sort key used by `[...params.entries()].sort()`: JavaScript stringifies
the entry array to `key + "," + value` and compares code units. -/
def entryKey (p : Str × Str) : Str := p.1 ++ ',' :: p.2

/-- The comparison relation of the default JavaScript array sort on entries. -/
def entryLe (a b : Str × Str) : Prop :=
  String.mk (entryKey a) ≤ String.mk (entryKey b)

instance : DecidableRel entryLe := fun a b =>
  inferInstanceAs (Decidable (String.mk (entryKey a) ≤ String.mk (entryKey b)))

instance : IsTotal (Str × Str) entryLe :=
  ⟨fun a b => le_total (String.mk (entryKey a)) (String.mk (entryKey b))⟩

instance : IsTrans (Str × Str) entryLe :=
  ⟨fun _ _ _ hab hbc => le_trans hab hbc⟩

namespace CrawlManager

/-- `CrawlManager.normalizeUrl` (crawl-manager.ts): parse, drop the hash, sort
the query parameters with the default array sort, re-serialize, and strip one
trailing slash unless the pathname is exactly `/`. Invalid URLs give `none`.
JavaScript sorts with a stable sort; `List.insertionSort` is stable, so it
computes the same result. -/
def normalizeUrl (url : Str) : Option Str :=
  match Crawler.parseUrl url with
  | none => none
  | some parsed =>
    let sortedParams := List.insertionSort entryLe (parsed.query.getD [])
    let replaced : Url :=
      { parsed with
        fragment := none,
        query := if sortedParams = [] then none else some sortedParams }
    let normalized := serializeUrl replaced
    if normalized.getLast? = some '/' ∧ parsed.path ≠ ['/'] then normalized.dropLast
    else normalized

end CrawlManager

namespace SeoUrlFilter

/-- Non-HTML file extensions to exclude (seo-url-filter.ts). -/
def NON_HTML_EXTENSIONS : List Str :=
  ([".jpg", ".jpeg", ".png", ".gif", ".webp", ".svg", ".ico", ".bmp", ".tiff", ".avif",
    ".pdf", ".doc", ".docx", ".xls", ".xlsx", ".ppt", ".pptx", ".odt", ".ods", ".odp",
    ".mp3", ".mp4", ".wav", ".avi", ".mov", ".webm", ".ogg", ".flac", ".mkv",
    ".js", ".css", ".json", ".xml", ".rss", ".atom", ".yaml", ".yml",
    ".woff", ".woff2", ".ttf", ".otf", ".eot",
    ".zip", ".rar", ".tar", ".gz", ".7z",
    ".txt", ".csv", ".ics", ".vcf", ".apk", ".exe", ".dmg"] : List String).map
    String.toList

/-- Excluded path segments, matched exactly against each segment (seo-url-filter.ts). -/
def EXCLUDED_PATH_SEGMENTS : List Str :=
  (["wp-admin", "admin", "administrator", "backend", "dashboard",
    "wp-login", "wp-json",
    "login", "logout", "signin", "signout", "signup", "register",
    "account", "my-account", "profile", "settings", "preferences",
    "password", "reset-password", "forgot-password",
    "cart", "checkout", "basket", "wishlist", "compare",
    "add-to-cart", "remove-from-cart", "order-confirmation",
    "order-tracking", "payment",
    "search", "filter", "results",
    "print", "email-friend", "share",
    "calendar", "ical",
    "feed", "rss", "atom",
    "api", "graphql", "rest",
    "preview", "draft",
    "private", "internal", "staging",
    "comment", "comments", "reply",
    "tag", "author", "tags", "authors"] : List String).map String.toList

/-- Excluded path substrings (seo-url-filter.ts). -/
def EXCLUDED_PATH_SUBSTRINGS : List Str :=
  (["/wp-content/uploads", "/wp-login.php"] : List String).map String.toList

/-- Excluded query parameter names (seo-url-filter.ts). -/
def EXCLUDED_QUERY_PARAMS : List Str :=
  (["page", "p", "paged", "pg", "offset",
    "sort", "sortby", "order", "orderby", "filter", "filters",
    "sessionid", "session_id", "sid", "phpsessid", "jsessionid",
    "utm_source", "utm_medium", "utm_campaign", "utm_term", "utm_content",
    "fbclid", "gclid", "msclkid", "dclid", "zanpid", "ref", "affiliate",
    "mc_cid", "mc_eid", "_ga", "_gl", "yclid", "ymclid",
    "preview", "draft", "debug", "test",
    "print", "format", "output", "pdf",
    "replytocom", "reply", "comment",
    "add-to-cart", "remove-item", "quantity", "coupon",
    "q", "s", "search", "query", "keyword", "keywords",
    "redirect", "redirect_to", "return", "return_to", "next",
    "view", "display", "layout", "mode",
    "compare", "wishlist", "add-to-wishlist",
    "v", "ver", "version", "rev",
    "t", "ts", "timestamp", "cache", "_"] : List String).map String.toList

/-- Result record of the filter (seo-url-filter.ts `SeoFilterResult`). -/
structure SeoFilterResult where
  isRelevant : Bool
  reason : Option String
deriving DecidableEq, Repr

/-- First excluded segment of a path, if any (seo-url-filter.ts
`hasExcludedPathSegment`): split on `/`, drop empty segments, return the
first segment present in `EXCLUDED_PATH_SEGMENTS`. -/
def hasExcludedPathSegment (pathname : Str) : Option Str :=
  let segments := (splitChar '/' pathname).filter (fun s => s.length > 0)
  segments.find? (fun segment => EXCLUDED_PATH_SEGMENTS.contains segment)

/-- `isSeoRelevantUrl` (seo-url-filter.ts): parse the URL; reject in order a
non-HTML extension of the lower-cased path, an excluded path segment, an
excluded path substring, and an excluded query parameter; unparsable input
gives `Invalid URL`. -/
def isSeoRelevantUrl (url : Str) : SeoFilterResult :=
  match Crawler.parseUrl url with
  | none => { isRelevant := false, reason := some "Invalid URL" }
  | some parsed =>
    let pathname := toLowerStr parsed.path
    match NON_HTML_EXTENSIONS.find? (fun ext => ext.isSuffixOf pathname) with
    | some ext =>
      { isRelevant := false, reason := some ("Non-HTML file extension: " ++ String.mk ext) }
    | none =>
      match hasExcludedPathSegment pathname with
      | some segment =>
        { isRelevant := false, reason := some ("Excluded path segment: " ++ String.mk segment) }
      | none =>
        match EXCLUDED_PATH_SUBSTRINGS.find? (fun pat => strContains pathname pat) with
        | some pat =>
          { isRelevant := false, reason := some ("Excluded path pattern: " ++ String.mk pat) }
        | none =>
          let params := parsed.query.getD []
          match EXCLUDED_QUERY_PARAMS.find? (fun param => params.any (fun pr => pr.1 == param)) with
          | some param =>
            { isRelevant := false,
              reason := some ("Excluded query parameter: " ++ String.mk param) }
          | none => { isRelevant := true, reason := none }

/-- Boolean form (seo-url-filter.ts `isSeoRelevant`). -/
def isSeoRelevant (url : Str) : Bool :=
  (isSeoRelevantUrl url).isRelevant

end SeoUrlFilter

/-- Strip a single leading `www.`, modelling `replace(/^www\./, "")`. -/
def stripWww (h : Str) : Str :=
  if ("www.").toList.isPrefixOf h then h.drop 4 else h

namespace CrawlManager

/-- How a URL entered the frontier. -/
inductive DiscoveredVia
  | seed
  | sitemap
  | crawl
deriving DecidableEq, Repr

/-- A frontier entry (crawl-manager.ts `QueueItem`). -/
structure QueueItem where
  url : Str
  depth : Nat
  parentUrl : Option Str
  discoveredVia : DiscoveredVia
deriving DecidableEq, Repr

/-- The crawl-policy fields `addToQueue` consults (crawl-manager.ts
`CrawlSettings`; depths and page counts are the non-negative integers the
job store provides). -/
structure CrawlSettings where
  max_pages : Nat
  max_depth : Nat
  follow_subdomains : Bool
  include_patterns : List Str
  exclude_patterns : List Str

/-- The manager context `addToQueue` reads: the settings, the project domain,
and the robots decision.  `robotsAllowed u = false` models
`this.robotsParser && !this.robotsParser.isAllowed(u)`; the robots matcher
itself is the external npm library, so it enters as an oracle here. -/
structure CrawlConfig where
  settings : CrawlSettings
  projectDomain : Str
  robotsAllowed : Str → Bool

/-- The manager state `addToQueue` mutates. -/
structure CrawlState where
  queue : List QueueItem
  visited : Finset Str
  discovered : Finset Str
  pagesDiscovered : Nat

/-- `CrawlManager.matchesPatterns`: with include patterns the URL must contain
at least one; it must contain no exclude pattern. -/
def matchesPatterns (cfg : CrawlConfig) (url : Str) : Bool :=
  (if cfg.settings.include_patterns ≠ [] then
    cfg.settings.include_patterns.any (fun pattern => strContains url pattern)
  else true) &&
  (if cfg.settings.exclude_patterns ≠ [] then
    !(cfg.settings.exclude_patterns.any (fun pattern => strContains url pattern))
  else true)

/-- `CrawlManager.isAllowedDomain`: compare hostnames with `www.` stripped;
with `follow_subdomains` a dot-suffix also matches. -/
def isAllowedDomain (cfg : CrawlConfig) (url : Str) : Bool :=
  match Crawler.parseUrl url with
  | none => false
  | some parsed =>
    let targetDomain := stripWww parsed.host
    let baseDomain := stripWww cfg.projectDomain
    if cfg.settings.follow_subdomains then
      targetDomain == baseDomain || ('.' :: baseDomain).isSuffixOf targetDomain
    else targetDomain == baseDomain

/-- `CrawlManager.addToQueue`: normalize, dedup against `visited` and
`discovered`, enforce the depth and page caps, consult robots, the
include/exclude patterns, the domain rule and the SEO filter; on success
append to the frontier, add to `discovered` and bump the counter. -/
def addToQueue (cfg : CrawlConfig) (st : CrawlState) (url : Str) (depth : Nat)
    (parentUrl : Option Str) (discoveredVia : DiscoveredVia) : Bool × CrawlState :=
  match normalizeUrl url with
  | none => (false, st)
  | some normalizedUrl =>
    if normalizedUrl ∈ st.visited ∨ normalizedUrl ∈ st.discovered then (false, st)
    else if depth > cfg.settings.max_depth then (false, st)
    else if st.discovered.card ≥ cfg.settings.max_pages then (false, st)
    else if ¬ (cfg.robotsAllowed normalizedUrl = true) then (false, st)
    else if ¬ (matchesPatterns cfg normalizedUrl = true) then (false, st)
    else if ¬ (isAllowedDomain cfg normalizedUrl = true) then (false, st)
    else if ¬ (SeoUrlFilter.isSeoRelevant normalizedUrl = true) then (false, st)
    else
      (true,
        { st with
          queue := st.queue ++
            [{ url := normalizedUrl, depth := depth, parentUrl := parentUrl,
               discoveredVia := discoveredVia }],
          discovered := insert normalizedUrl st.discovered,
          pagesDiscovered := st.pagesDiscovered + 1 })

/-- One requested admission. -/
structure AdmitCall where
  url : Str
  depth : Nat
  parentUrl : Option Str
  discoveredVia : DiscoveredVia

/-- State after one admission attempt. -/
def admitStep (cfg : CrawlConfig) (st : CrawlState) (c : AdmitCall) : CrawlState :=
  (addToQueue cfg st c.url c.depth c.parentUrl c.discoveredVia).2

/-- State after a sequence of admission attempts. -/
def runAdmits (cfg : CrawlConfig) (st : CrawlState) (calls : List AdmitCall) : CrawlState :=
  calls.foldl (admitStep cfg) st

/-- The manager state at the start of a run. -/
def initialState : CrawlState :=
  { queue := [], visited := ∅, discovered := ∅, pagesDiscovered := 0 }

end CrawlManager

/-- Whitespace as JavaScript `trim` removes it (tab, LF, CR, space suffice
for robots.txt lines). -/
def isSpaceChar (c : Char) : Bool :=
  c.toNat = 9 || c.toNat = 10 || c.toNat = 13 || c.toNat = 32

/-- JavaScript `String.prototype.trim` on ASCII whitespace. -/
def trimAscii (s : Str) : Str :=
  (s.dropWhile isSpaceChar).reverse.dropWhile isSpaceChar |>.reverse

namespace RobotsLib

/-- One `Allow`/`Disallow` rule: the flag and the path pattern. -/
structure Rule where
  allow : Bool
  path : Str
deriving DecidableEq, Repr

/-- One user-agent group: the agents naming it and its rules. -/
structure Group where
  agents : List Str
  rules : List Rule
deriving DecidableEq, Repr

/-- Modelled from the behaviour of the external npm `robots-parser` package
(only its interface is visible from the repository): group the file into
`User-agent` blocks, where consecutive `User-agent` lines share one block
and a comment (`#`) cuts a line short. -/
def groupStep (st : List Group × Bool) (line : Str) : List Group × Bool :=
  let l := trimAscii (spanNot (fun c => c = '#') line).1
  let lowered := toLowerStr l
  if ("user-agent:").toList.isPrefixOf lowered then
    let agent := toLowerStr (trimAscii (l.drop 11))
    match st with
    | (groups, true) =>
      match groups.getLast? with
      | some g => (groups.dropLast ++ [{ g with agents := g.agents ++ [agent] }], true)
      | none => ([{ agents := [agent], rules := [] }], true)
    | (groups, false) => (groups ++ [{ agents := [agent], rules := [] }], true)
  else if ("disallow:").toList.isPrefixOf lowered then
    let path := trimAscii (l.drop 9)
    match st.1.getLast? with
    | some g => (st.1.dropLast ++ [{ g with rules := g.rules ++ [{ allow := false, path := path }] }], false)
    | none => (st.1, false)
  else if ("allow:").toList.isPrefixOf lowered then
    let path := trimAscii (l.drop 6)
    match st.1.getLast? with
    | some g => (st.1.dropLast ++ [{ g with rules := g.rules ++ [{ allow := true, path := path }] }], false)
    | none => (st.1, false)
  else (st.1, false)

/-- All user-agent groups of a robots.txt body. -/
def robotsGroups (content : Str) : List Group :=
  ((splitChar (Char.ofNat 10) content).foldl groupStep ([], false)).1

/-- Modelled from the npm `robots-parser` matcher: a group applies to a user
agent when one of its agents is `*` or occurs inside the lower-cased agent
string; among the applicable rules whose path is a prefix of the URL path the
longest one decides; with no applicable rule the URL is allowed.  Wildcard
path patterns are outside the model.  An unparsable URL gives `none`
(the library returns `undefined`). -/
def isAllowed (content : Str) (url : Str) (userAgent : Str) : Option Bool :=
  match Crawler.parseUrl url with
  | none => none
  | some parsed =>
    let groups := robotsGroups content
    let applicable := groups.filter
      (fun g => g.agents.any (fun a => a = ['*'] || strContains (toLowerStr userAgent) a))
    let rules := (applicable.map Group.rules).flatten
    let matching := rules.filter (fun r => r.path.isPrefixOf parsed.path)
    let best := matching.foldl
      (fun acc r =>
        match acc with
        | none => some r
        | some b => if r.path.length > b.path.length then some r else acc)
      (none : Option Rule)
    match best with
    | none => some true
    | some r => some r.allow

end RobotsLib

namespace RobotsParser

/-- The fixed list of AI crawler user agents (robots-parser.ts `AI_CRAWLERS`). -/
def AI_CRAWLERS : List Str :=
  (["GPTBot", "ChatGPT-User", "Google-Extended", "anthropic-ai", "Claude-Web",
    "PerplexityBot", "Amazonbot", "OAI-SearchBot", "cohere-ai", "FacebookBot"] :
    List String).map String.toList

/-- Overwriting update of the `aiCrawlerRules` map (`Map.set`). -/
def mapSet (m : Str → Option Bool) (k : Str) (v : Bool) : Str → Option Bool :=
  fun x => if x = k then some v else m x

/-- The inner loop of `parseAiCrawlerRules` for one effective directive:
for every accumulated agent other than `*`, find the AI crawler whose
lower-case name equals it and record the verdict. -/
def applyGroup (rules : Str → Option Bool) (agents : List Str) (v : Bool) :
    Str → Option Bool :=
  agents.foldl
    (fun m ua =>
      if ua ≠ ['*'] then
        match AI_CRAWLERS.find? (fun c => toLowerStr c == ua) with
        | some matchedCrawler => mapSet m matchedCrawler v
        | none => m
      else m)
    rules

/-- The scan state of `parseAiCrawlerRules`. -/
structure AiScanState where
  currentUserAgents : List Str
  rules : Str → Option Bool

/-- One line of `parseAiCrawlerRules` (robots-parser.ts lines 91-138):
matching `User-agent` lines accumulate, a non-matching one resets the group;
`Disallow:`/`Allow:` with path `/` or empty records a verdict for every
accumulated specific agent; a blank or comment line resets the group. -/
def aiLineStep (st : AiScanState) (line : Str) : AiScanState :=
  let trimmedLine := toLowerStr (trimAscii line)
  if ("user-agent:").toList.isPrefixOf trimmedLine then
    let ua := trimAscii (trimmedLine.drop 11)
    if ua = ['*'] ∨ AI_CRAWLERS.any (fun c => toLowerStr c == ua) then
      { st with currentUserAgents := st.currentUserAgents ++ [ua] }
    else { st with currentUserAgents := [] }
  else if ("disallow:").toList.isPrefixOf trimmedLine ∧ st.currentUserAgents ≠ [] then
    let path := trimAscii (trimmedLine.drop 9)
    if path = ['/'] ∨ path = [] then
      { st with rules := applyGroup st.rules st.currentUserAgents false }
    else st
  else if ("allow:").toList.isPrefixOf trimmedLine ∧ st.currentUserAgents ≠ [] then
    let path := trimAscii (trimmedLine.drop 6)
    if path = ['/'] ∨ path = [] then
      { st with rules := applyGroup st.rules st.currentUserAgents true }
    else st
  else if trimmedLine = [] ∨ ("#").toList.isPrefixOf trimmedLine then
    { st with currentUserAgents := [] }
  else st

/-- `RobotsParser.parseAiCrawlerRules`: the final `aiCrawlerRules` map after
scanning every line. -/
def parseAiCrawlerRules (robotsTxt : Str) : Str → Option Bool :=
  ((splitChar (Char.ofNat 10) robotsTxt).foldl aiLineStep
    { currentUserAgents := [], rules := fun _ => none }).rules

/-- `RobotsParser.getAiCrawlerAccess` for one crawler of the fixed list:
`some false` = explicitly disallowed, `some true` = explicitly allowed,
`none` = not mentioned. -/
def getAiCrawlerAccess (robotsTxt : Str) (crawler : Str) : Option Bool :=
  parseAiCrawlerRules robotsTxt crawler

/-- Outcome of the `fetch` call inside `RobotsParser.fetch`. -/
inductive FetchOutcome
  | networkError
  | response (ok : Bool) (body : Str)

/-- The parser state `RobotsParser.fetch` leaves behind: the text the npm
parser was constructed with, and the AI-crawler map. -/
structure RobotsState where
  content : Option Str
  aiRules : Str → Option Bool

/-- `RobotsParser.fetch` (robots-parser.ts lines 37-62): on a non-ok response
or a thrown fetch the parser is built from the empty string; on success it is
built from the body and the AI rules are parsed. -/
def fetchRobots (outcome : FetchOutcome) : RobotsState :=
  match outcome with
  | .networkError => { content := some [], aiRules := fun _ => none }
  | .response ok body =>
    if ok then { content := some body, aiRules := parseAiCrawlerRules body }
    else { content := some [], aiRules := fun _ => none }

/-- `RobotsParser.isAllowed`: with no parser everything is allowed, otherwise
the library answers and `undefined` falls back to `true`. -/
def isAllowed (userAgent : Str) (st : RobotsState) (url : Str) : Bool :=
  match st.content with
  | none => true
  | some content => (RobotsLib.isAllowed content url userAgent).getD true

end RobotsParser

namespace PageCrawler

/-- crawl-manager.ts (PageCrawler): `maxRetries = 2`. -/
def maxRetries : Nat := 2

/-- crawl-manager.ts (PageCrawler): `retryDelayMs = 1000`. -/
def retryDelayMs : Nat := 1000

/-- The retry whitelist of `PageCrawler.isRetryableError`. -/
def retryablePatterns : List Str :=
  (["net::err_connection_reset", "net::err_connection_timed_out",
    "net::err_network_changed", "net::err_internet_disconnected",
    "net::err_socket_not_connected", "net::err_connection_closed",
    "net::err_empty_response", "timeout", "econnreset", "econnrefused",
    "etimedout", "epipe", "socket hang up", "aborted"] : List String).map
    String.toList

/-- `PageCrawler.isRetryableError`: the lower-cased message contains one of
the whitelisted patterns. -/
def isRetryableError (message : Str) : Bool :=
  retryablePatterns.any (fun pattern => strContains (toLowerStr message) pattern)

/-- The page record shape relevant to the fetch loop (error records carry
`statusCode`, `isIndexable := false` and a reason). -/
structure PageData where
  url : Str
  statusCode : Nat
  isIndexable : Bool
  indexabilityReason : Option Str
deriving DecidableEq, Repr

/-- `PageCrawler.createErrorResult`. -/
def createErrorResult (url : Str) (statusCode : Nat) (reason : Str) : PageData :=
  { url := url, statusCode := statusCode, isIndexable := false,
    indexabilityReason := some reason }

/-- What one attempt's environment does.  `newPageFail` models
`context.newPage()` throwing (outside the try of `crawlAttempt`);
`throwNav` models `page.goto` (or anything later inside the try) throwing
with a message and the status of the response seen so far (0 when `goto`
itself threw); `noResponse` models `goto` resolving to null; `success`
abstracts a completed navigation whose extraction yields a record. -/
inductive NavOutcome
  | newPageFail (message : Str)
  | throwNav (message : Str) (responseStatus : Nat)
  | noResponse
  | success (record : PageData)

/-- `PageCrawler.crawlAttempt` (crawl-manager.ts lines 942-1026) as the retry
loop observes it: an `Except.error` is an exception escaping the attempt.
Every navigation error is caught inside the attempt and converted to an
`ok` error record (DNS, connection-refused and timeout messages are
specialized first). -/
def crawlAttempt (url : Str) (nav : NavOutcome) : Except Str PageData :=
  match nav with
  | .newPageFail message => .error message
  | .throwNav message responseStatus =>
    if strContains message ("net::ERR_NAME_NOT_RESOLVED").toList then
      .ok (createErrorResult url 0 ("DNS resolution failed").toList)
    else if strContains message ("net::ERR_CONNECTION_REFUSED").toList then
      .ok (createErrorResult url 0 ("Connection refused").toList)
    else if strContains message ("Timeout").toList then
      .ok (createErrorResult url 0 ("Request timeout").toList)
    else .ok (createErrorResult url responseStatus message)
  | .noResponse => .ok (createErrorResult url 0 ("No response received").toList)
  | .success record => .ok record

/-- What a call of `PageCrawler.crawl` did: its result, how many attempts ran,
and the back-off sleeps it performed. -/
structure CrawlRun where
  result : PageData
  attempts : Nat
  delays : List Nat
deriving DecidableEq, Repr

/-- The retry loop of `PageCrawler.crawl` (crawl-manager.ts lines 879-903)
from a given attempt index: return the attempt result when the attempt does
not throw; on a thrown non-retryable error stop; on a retryable one sleep
`retryDelayMs * 2 ^ attempt` and move to the next attempt while
`attempt < maxRetries`. -/
def crawlLoop (url : Str) (env : Nat → NavOutcome) (attempt : Nat)
    (delays : List Nat) : CrawlRun :=
  match crawlAttempt url (env attempt) with
  | .ok r => { result := r, attempts := attempt + 1, delays := delays }
  | .error e =>
    if ¬ (isRetryableError e = true) then
      { result := createErrorResult url 0 e, attempts := attempt + 1, delays := delays }
    else if attempt < maxRetries then
      crawlLoop url env (attempt + 1) (delays ++ [retryDelayMs * 2 ^ attempt])
    else
      { result := createErrorResult url 0 e, attempts := attempt + 1, delays := delays }
termination_by maxRetries - attempt

/-- `PageCrawler.crawl`: run the loop from attempt 0. -/
def crawl (url : Str) (env : Nat → NavOutcome) : CrawlRun :=
  crawlLoop url env 0 []

end PageCrawler

namespace LinkQualityAnalyzer

/-- The page columns `analyzeOrphanPages` selects. -/
structure PageRow where
  id : String
  url : String
  page_depth : Int
  internal_links_received : Int
  status_code : Int
  discovered_via : String
deriving DecidableEq, Repr

/-- The database filter of `analyzeOrphanPages`: no incoming internal links,
not the homepage, indexable status (200-399). -/
def potentialOrphans (pages : List PageRow) : List PageRow :=
  pages.filter (fun p =>
    decide (p.internal_links_received = 0 ∧ p.page_depth ≠ 0 ∧
      200 ≤ p.status_code ∧ p.status_code < 400))

/-- The splitting loop of `analyzeOrphanPages`: `discovered_via = "sitemap"`
goes to the sitemap-only list, anything else except `"seed"` to the true
orphans. Returns (trueOrphans, sitemapOnlyPages). -/
def splitOrphans (pot : List PageRow) : List PageRow × List PageRow :=
  pot.foldl
    (fun acc page =>
      if page.discovered_via = "sitemap" then (acc.1, acc.2 ++ [page])
      else if page.discovered_via ≠ "seed" then (acc.1 ++ [page], acc.2)
      else acc)
    ([], [])

/-- `analyzeOrphanPages` (link-quality-analyzer.ts lines 256-323) as the list
of `(page, issue code)` pairs passed to `storeIssue`, guarded by the loaded
issue definitions exactly as in the source. -/
def analyzeOrphanPages (pages : List PageRow)
    (hasOrphanDef hasSitemapOnlyDef : Bool) : List (PageRow × String) :=
  let pot := potentialOrphans pages
  let split := splitOrphans pot
  (if hasOrphanDef then split.1.map (fun p => (p, "orphan_page")) else []) ++
    (if hasSitemapOnlyDef then split.2.map (fun p => (p, "sitemap_only_page")) else [])

end LinkQualityAnalyzer

/-- A JSON-like structured-data value (`unknown` in the source).  Numbers are
modelled as exact rationals; a missing object field is `nullv` (JavaScript
`undefined` and `null` behave alike in every use below). -/
inductive SVal
  | nullv
  | boolv (b : Bool)
  | num (q : Rat)
  | str (s : String)
  | arr (elems : List SVal)
  | obj (fields : List (String × SVal))
deriving Repr

/-- A JSON object as the extractors receive it. -/
abbrev SObj := List (String × SVal)

/-- JavaScript property access `o[k]` on a parsed JSON object. -/
def objGet (fields : SObj) (k : String) : SVal :=
  match fields.find? (fun f => f.1 == k) with
  | some f => f.2
  | none => .nullv

/-- JavaScript truthiness of a structured-data value. -/
def truthy : SVal → Bool
  | .nullv => false
  | .boolv b => b
  | .num q => !(q == 0)
  | .str s => !(s == "")
  | .arr _ => true
  | .obj _ => true

/-- JavaScript `a || b` on structured-data values. -/
def jsOr (a b : SVal) : SVal := if truthy a then a else b

/-- JavaScript number-to-string conversion, exact for integers (the only
values the crawler stringifies in practice). -/
def jsNumToString (q : Rat) : String :=
  if q.den = 1 then toString q.num else toString q

/-- `parseFloat` on a cleaned numeric string: optional sign, integer digits,
optional fraction; `none` models `NaN`. -/
def parseFloatQ (s : Str) : Option Rat :=
  let parseUnsigned : Str → Option Rat := fun t =>
    let ip := t.takeWhile isAsciiDigit
    let rest := t.drop ip.length
    let fd :=
      match rest with
      | '.' :: fr => fr.takeWhile isAsciiDigit
      | _ => []
    if ip = [] ∧ fd = [] then none
    else
      some ((digitsToNat ip : Rat) +
        (digitsToNat fd : Rat) / ((10 : Rat) ^ fd.length))
  match s with
  | '-' :: rest => (parseUnsigned rest).map Neg.neg
  | t => parseUnsigned t

/-- `CrawlManager.getSchemaString`: strings pass through, numbers are
stringified, anything else is `undefined`. -/
def getSchemaString (value : SVal) : Option String :=
  match value with
  | .str s => some s
  | .num q => some (jsNumToString q)
  | _ => none

/-- `CrawlManager.getSchemaNumber`: numbers pass through; strings are
stripped to `[0-9.-]` and fed to `parseFloat`. -/
def getSchemaNumber (value : SVal) : Option Rat :=
  match value with
  | .num q => some q
  | .str s =>
    parseFloatQ (s.toList.filter (fun c => isAsciiDigit c || c = '.' || c = '-'))
  | _ => none

/-- JavaScript falsiness of an optional string (`!x` for
`x : string | undefined`): absent or empty. -/
def jsFalsyStr (o : Option String) : Bool :=
  match o with
  | none => true
  | some s => s == ""

/-- `CrawlManager.extractBrandName`. -/
def extractBrandName (brand : SVal) : Option String :=
  if ¬ (truthy brand = true) then none
  else
    match brand with
    | .str s => some s
    | .obj fields => getSchemaString (objGet fields "name")
    | .arr _ => none
    | _ => none

/-- `CrawlManager.extractFirstImage`: strings pass, a non-empty array recurses
on its head, an object yields `url` or `@id`. -/
def extractFirstImage (image : SVal) : Option String :=
  if ¬ (truthy image = true) then none
  else
    match image with
    | .str s => some s
    | .arr (e :: _) => extractFirstImage e
    | .arr [] => none
    | .obj fields => getSchemaString (jsOr (objGet fields "url") (objGet fields "@id"))
    | _ => none

/-- Index of the first occurrence of `pat` inside `s`. -/
def indexOfSub (pat : Str) : Str → Option Nat
  | [] => if pat.isPrefixOf ([] : Str) then some 0 else none
  | c :: cs =>
    if pat.isPrefixOf (c :: cs) then some 0
    else (indexOfSub pat cs).map (fun n => n + 1)

/-- `CrawlManager.normalizeAvailability`: everything after the first
`schema.org/` (case-insensitive), unless that tail is empty. -/
def normalizeAvailability (availability : SVal) : Option String :=
  match getSchemaString availability with
  | none => none
  | some avail =>
    if avail == "" then none
    else
      match indexOfSub ("schema.org/").toList (toLowerStr avail.toList) with
      | some i =>
        let tail := avail.toList.drop (i + 11)
        if tail ≠ [] then some (String.mk tail) else some avail
      | none => some avail

/-- One extracted offer. -/
structure Offer where
  price : Option Rat
  currency : Option String
  availability : Option String
  priceValidUntil : Option String
deriving DecidableEq, Repr

/-- `CrawlManager.extractOffers`: an `AggregateOffer` yields
`lowPrice ?? highPrice`; plain offers yield their own fields; arrays are
processed element-wise; non-objects are skipped. -/
def processOffer (o : SVal) : List Offer :=
  match o with
  | .obj fields =>
    let isAggregate :=
      match objGet fields "@type" with
      | .str t => t == "AggregateOffer"
      | _ => false
    if isAggregate then
      [{ price := (getSchemaNumber (objGet fields "lowPrice")).orElse
          (fun _ => getSchemaNumber (objGet fields "highPrice")),
         currency := getSchemaString (objGet fields "priceCurrency"),
         availability := normalizeAvailability (objGet fields "availability"),
         priceValidUntil := getSchemaString (objGet fields "priceValidUntil") }]
    else
      [{ price := getSchemaNumber (objGet fields "price"),
         currency := getSchemaString (objGet fields "priceCurrency"),
         availability := normalizeAvailability (objGet fields "availability"),
         priceValidUntil := getSchemaString (objGet fields "priceValidUntil") }]
  | _ => []

/-- `CrawlManager.extractOffers` entry point. -/
def extractOffers (offers : SVal) : List Offer :=
  if ¬ (truthy offers = true) then []
  else
    match offers with
    | .arr elems => (elems.map processOffer).flatten
    | o => processOffer o

/-- Gregorian leap year. -/
def isLeap (y : Int) : Bool :=
  (y % 4 == 0 && y % 100 != 0) || y % 400 == 0

/-- Days in a month (1-12). -/
def daysInMonth (y : Int) (m : Nat) : Nat :=
  match m with
  | 1 => 31
  | 2 => if isLeap y then 29 else 28
  | 3 => 31
  | 4 => 30
  | 5 => 31
  | 6 => 30
  | 7 => 31
  | 8 => 31
  | 9 => 30
  | 10 => 31
  | 11 => 30
  | 12 => 31
  | _ => 0

/-- Days since 1970-01-01 of a civil date (also correct for a day count that
overflows the month, as JavaScript `setFullYear` rollover needs). -/
def daysFromCivil (y : Int) (m d : Int) : Int :=
  let y1 := if m ≤ 2 then y - 1 else y
  let era := (if 0 ≤ y1 then y1 else y1 - 399) / 400
  let yoe := y1 - era * 400
  let mp := (m + 9) % 12
  let doy := (153 * mp + 2) / 5 + d - 1
  let doe := yoe * 365 + yoe / 4 - yoe / 100 + doy
  era * 146097 + doe - 719468

/-- Civil date of a day count since 1970-01-01 (year, month, day). -/
def civilFromDays (z : Int) : Int × Int × Int :=
  let z1 := z + 719468
  let era := (if 0 ≤ z1 then z1 else z1 - 146096) / 146097
  let doe := z1 - era * 146097
  let yoe := (doe - doe / 1460 + doe / 36524 - doe / 146096) / 365
  let y := yoe + era * 400
  let doy := doe - (365 * yoe + yoe / 4 - yoe / 100)
  let mp := (5 * doy + 2) / 153
  let d := doy - (153 * mp + 2) / 5 + 1
  let m := if mp < 10 then mp + 3 else mp - 9
  (if m ≤ 2 then y + 1 else y, m, d)

/-- Take exactly `n` digits, returning them and the rest. -/
def takeDigits (n : Nat) (s : Str) : Option (Nat × Str) :=
  let ds := s.take n
  if ds.length = n ∧ ds.all isAsciiDigit = true then some (digitsToNat ds, s.drop n)
  else none

/-- The epoch milliseconds of an ISO-8601 date string of the shape the
crawler's regex accepts, or `none` when JavaScript `new Date(s)` would be an
Invalid Date.  Zone-less date-times are read as UTC (the worker clock is
modelled as UTC). -/
def parseIsoDateMs (s : Str) : Option Int :=
  match takeDigits 4 s with
  | none => none
  | some (y, r1) =>
    match r1 with
    | '-' :: r2 =>
      match takeDigits 2 r2 with
      | none => none
      | some (mo, r3) =>
        match r3 with
        | '-' :: r4 =>
          match takeDigits 2 r4 with
          | none => none
          | some (d, r5) =>
            if ¬ (1 ≤ mo ∧ mo ≤ 12 ∧ 1 ≤ d ∧ d ≤ daysInMonth (y : Int) mo) then none
            else
              let dayMs : Int := daysFromCivil (y : Int) (mo : Int) (d : Int) * 86400000
              match r5 with
              | [] => some dayMs
              | 'T' :: r6 =>
                match takeDigits 2 r6 with
                | none => none
                | some (hh, r7) =>
                  match r7 with
                  | ':' :: r8 =>
                    match takeDigits 2 r8 with
                    | none => none
                    | some (mi, r9) =>
                      let secPart :=
                        match r9 with
                        | ':' :: r10 =>
                          match takeDigits 2 r10 with
                          | none => none
                          | some (ss, r11) =>
                            match r11 with
                            | '.' :: r12 =>
                              let frac := r12.takeWhile isAsciiDigit
                              if frac = [] then none
                              else
                                let ms := digitsToNat ((frac ++ ['0', '0', '0']).take 3)
                                some (ss, ms, r12.drop frac.length)
                            | _ => some (ss, 0, r11)
                        | _ => some (0, 0, r9)
                      match secPart with
                      | none => none
                      | some (ss, ms, r13) =>
                        let zonePart : Option Int :=
                          match r13 with
                          | [] => some 0
                          | ['Z'] => some 0
                          | sign :: rz =>
                            if sign = '+' ∨ sign = '-' then
                              match takeDigits 2 rz with
                              | none => none
                              | some (zh, rz2) =>
                                match rz2 with
                                | ':' :: rz3 =>
                                  match takeDigits 2 rz3 with
                                  | some (zm, []) =>
                                    if zh ≤ 23 ∧ zm ≤ 59 then
                                      some ((if sign = '-' then -1 else 1) *
                                        ((zh : Int) * 60 + (zm : Int)))
                                    else none
                                  | _ => none
                                | _ => none
                            else none
                        match zonePart with
                        | none => none
                        | some offMin =>
                          if hh ≤ 23 ∧ mi ≤ 59 ∧ ss ≤ 59 then
                            some (dayMs + (hh : Int) * 3600000 + (mi : Int) * 60000 +
                              (ss : Int) * 1000 + (ms : Int) - offMin * 60000)
                          else none
                  | _ => none
              | _ => none
        | _ => none
    | _ => none

/-- The shape test of `CrawlManager.isValidISO8601Date`, i.e. the regex
`^\d{4}-\d{2}-\d{2}(T\d{2}:\d{2}(:\d{2})?(\.\d+)?(Z|[+-]\d{2}:\d{2})?)?$`. -/
def iso8601Shape (s : Str) : Bool :=
  match takeDigits 4 s with
  | none => false
  | some (_, r1) =>
    match r1 with
    | '-' :: r2 =>
      match takeDigits 2 r2 with
      | none => false
      | some (_, r3) =>
        match r3 with
        | '-' :: r4 =>
          match takeDigits 2 r4 with
          | none => false
          | some (_, r5) =>
            match r5 with
            | [] => true
            | 'T' :: r6 =>
              match takeDigits 2 r6 with
              | none => false
              | some (_, r7) =>
                match r7 with
                | ':' :: r8 =>
                  match takeDigits 2 r8 with
                  | none => false
                  | some (_, r9) =>
                    let afterSec :=
                      match r9 with
                      | ':' :: r10 =>
                        match takeDigits 2 r10 with
                        | none => none
                        | some (_, r11) => some r11
                      | _ => some r9
                    match afterSec with
                    | none => false
                    | some r11 =>
                      let r12 :=
                        match r11 with
                        | '.' :: rf =>
                          let frac := rf.takeWhile isAsciiDigit
                          if frac = [] then none else some (rf.drop frac.length)
                        | _ => some r11
                      match r12 with
                      | none => false
                      | some r13 =>
                        match r13 with
                        | [] => true
                        | ['Z'] => true
                        | sign :: rz =>
                          if sign = '+' ∨ sign = '-' then
                            match takeDigits 2 rz with
                            | none => false
                            | some (_, rz2) =>
                              match rz2 with
                              | ':' :: rz3 =>
                                match takeDigits 2 rz3 with
                                | some (_, []) => true
                                | _ => false
                              | _ => false
                          else false
                | _ => false
            | _ => false
        | _ => false
    | _ => false

/-- `CrawlManager.isValidISO8601Date`: the regex matches and `new Date`
parses to a valid date. -/
def isValidISO8601Date (dateStr : String) : Bool :=
  if dateStr == "" then false
  else iso8601Shape dateStr.toList && (parseIsoDateMs dateStr.toList).isSome

/-- JavaScript `new Date(ms)` followed by `setFullYear(year - 2)`: move the
civil date two years back, keeping month, day and time of day, with the same
overflow rollover (Feb 29 becomes Mar 1). -/
def twoYearsAgoMs (now : Int) : Int :=
  let days := now.fdiv 86400000
  let timeOfDay := now - days * 86400000
  let c := civilFromDays days
  daysFromCivil (c.1 - 2) c.2.1 c.2.2 * 86400000 + timeOfDay

namespace PageCrawler

/-- An author given as an object, after coercion. -/
structure AuthorInfo where
  name : String
  url : Option String
deriving DecidableEq, Repr

/-- Article author: a plain string or a coerced object. -/
inductive AuthorVal
  | str (s : String)
  | info (i : AuthorInfo)
deriving DecidableEq, Repr

/-- A publisher given as an object, after coercion. -/
structure PublisherInfo where
  name : String
  logo : Option String
deriving DecidableEq, Repr

/-- Article publisher: a plain string or a coerced object. -/
inductive PublisherVal
  | str (s : String)
  | info (i : PublisherInfo)
deriving DecidableEq, Repr

/-- The extracted article fields (`articleData` in extractArticleData). -/
structure ArticleData where
  headline : Option String
  description : Option String
  body : Option String
  datePublished : Option String
  dateModified : Option String
  image : Option String
  wordCount : Option Rat
  inLanguage : Option String
  mainEntityOfPage : Option String
  author : Option AuthorVal
  publisher : Option PublisherVal
deriving DecidableEq, Repr

/-- The article validation flags; a flag absent from the JavaScript `issues`
object is `false` here. -/
structure ArticleIssues where
  missingHeadline : Bool := false
  shortHeadline : Bool := false
  headlineTooLong : Bool := false
  missingDatePublished : Bool := false
  invalidDateFormat : Bool := false
  futureDatePublished : Bool := false
  outdatedContent : Bool := false
  missingDateModified : Bool := false
  missingAuthor : Bool := false
  missingImage : Bool := false
  missingDescription : Bool := false
  missingPublisher : Bool := false
  missingBody : Bool := false
  missingWordCount : Bool := false
  multipleArticles : Bool := false
deriving DecidableEq, Repr

/-- Whether any article flag is set (`Object.values(issues).some(v => v)`). -/
def ArticleIssues.anySet (i : ArticleIssues) : Bool :=
  i.missingHeadline || i.shortHeadline || i.headlineTooLong ||
    i.missingDatePublished || i.invalidDateFormat || i.futureDatePublished ||
    i.outdatedContent || i.missingDateModified || i.missingAuthor ||
    i.missingImage || i.missingDescription || i.missingPublisher ||
    i.missingBody || i.missingWordCount || i.multipleArticles

/-- The result of `extractArticleData` when an article schema is present. -/
structure ArticleResult where
  hasArticleSchema : Bool
  schemaType : Option String
  articleCount : Nat
  articleData : ArticleData
  issues : Option ArticleIssues
deriving DecidableEq, Repr

/-- The article schema types recognized. -/
def articleTypes : List String :=
  ["Article", "NewsArticle", "BlogPosting", "TechArticle", "ScholarlyArticle"]

/-- Whether a `@type` value names an article type (string, or array containing
one). -/
def isArticleType (v : SVal) : Bool :=
  match v with
  | .arr ts => ts.any (fun t =>
      match t with
      | .str s => articleTypes.contains s
      | _ => false)
  | .str s => articleTypes.contains s
  | _ => false

/-- The author coercion block of `extractArticleData`: strings pass; for an
object (or the first element of an array) with object type, the name falls
back to `"Unknown"`. -/
def extractAuthor (authorData : SVal) : Option AuthorVal :=
  if ¬ (truthy authorData = true) then none
  else
    match authorData with
    | .str s => some (.str s)
    | .arr (first :: _) =>
      match first with
      | .obj fields =>
        let n := getSchemaString (objGet fields "name")
        some (.info { name := if jsFalsyStr n then "Unknown" else n.getD "Unknown",
                      url := getSchemaString (objGet fields "url") })
      | _ => none
    | .arr [] => none
    | .obj fields =>
      let n := getSchemaString (objGet fields "name")
      some (.info { name := if jsFalsyStr n then "Unknown" else n.getD "Unknown",
                    url := getSchemaString (objGet fields "url") })
    | _ => none

/-- The publisher coercion block of `extractArticleData`. -/
def extractPublisher (publisherData : SVal) : Option PublisherVal :=
  if ¬ (truthy publisherData = true) then none
  else
    match publisherData with
    | .str s => some (.str s)
    | .obj fields =>
      let pubName := getSchemaString (objGet fields "name")
      let logoUrl :=
        match objGet fields "logo" with
        | .str s => some s
        | .obj logoFields => getSchemaString (objGet logoFields "url")
        | _ => none
      some (.info { name := if jsFalsyStr pubName then "Unknown" else pubName.getD "Unknown",
                    logo := logoUrl })
    | .arr _ =>
      some (.info { name := "Unknown", logo := none })
    | _ => none

/-- `CrawlManager.extractArticleData` (crawl-manager.ts lines 1410-1581):
filter the article schemas, extract the first one's fields, and validate,
reading the system clock (`new Date()`) as the explicit `now` parameter. -/
def extractArticleData (structuredData : List SObj) (now : Int) : Option ArticleResult :=
  if structuredData.isEmpty then none
  else
    let articleSchemas := structuredData.filter (fun item => isArticleType (objGet item "@type"))
    match articleSchemas with
    | [] => none
    | article :: _ =>
      let articleCount := articleSchemas.length
      let schemaType : Option String :=
        match objGet article "@type" with
        | .arr ts => ts.findSome? (fun t =>
            match t with
            | .str s => if articleTypes.contains s then some s else none
            | _ => none)
        | .str s => some s
        | _ => none
      let articleData : ArticleData :=
        { headline := getSchemaString (jsOr (objGet article "headline") (objGet article "name")),
          description := getSchemaString (jsOr (objGet article "description") (objGet article "abstract")),
          body := getSchemaString (jsOr (objGet article "articleBody") (objGet article "text")),
          datePublished := getSchemaString (objGet article "datePublished"),
          dateModified := getSchemaString (objGet article "dateModified"),
          image := extractFirstImage (objGet article "image"),
          wordCount := getSchemaNumber (objGet article "wordCount"),
          inLanguage := getSchemaString (objGet article "inLanguage"),
          mainEntityOfPage :=
            (match objGet article "mainEntityOfPage" with
            | .obj fields => getSchemaString (objGet fields "@id")
            | .arr _ => none
            | v => getSchemaString v),
          author := extractAuthor (objGet article "author"),
          publisher := extractPublisher (objGet article "publisher") }
      let dateFlags : Bool × Bool × Bool × Bool :=
        match articleData.datePublished with
        | none => (true, false, false, false)
        | some d =>
          if d == "" then (true, false, false, false)
          else if ¬ (isValidISO8601Date d = true) then (false, true, false, false)
          else
            match parseIsoDateMs d.toList with
            | some pubMs =>
              (false, false, decide (pubMs > now),
                decide (pubMs < twoYearsAgoMs now) && articleData.dateModified.isNone)
            | none => (false, false, false, false)
      let issues : ArticleIssues :=
        { missingHeadline := jsFalsyStr articleData.headline,
          shortHeadline :=
            (match articleData.headline with
            | some h => !(h == "") && decide (h.length < 30)
            | none => false),
          headlineTooLong :=
            (match articleData.headline with
            | some h => !(h == "") && decide (h.length > 110)
            | none => false),
          missingDatePublished := dateFlags.1,
          invalidDateFormat := dateFlags.2.1 ||
            (match articleData.dateModified with
            | some dm => !(dm == "") && !(isValidISO8601Date dm)
            | none => false),
          futureDatePublished := dateFlags.2.2.1,
          outdatedContent := dateFlags.2.2.2,
          missingDateModified :=
            !(jsFalsyStr articleData.datePublished) && jsFalsyStr articleData.dateModified,
          missingAuthor := articleData.author.isNone,
          missingImage := jsFalsyStr articleData.image,
          missingDescription := jsFalsyStr articleData.description,
          missingPublisher := articleData.publisher.isNone,
          missingBody := jsFalsyStr articleData.body,
          missingWordCount :=
            (match articleData.wordCount with
            | none => true
            | some w => w == 0) && !(jsFalsyStr articleData.body),
          multipleArticles := decide (articleCount > 1) }
      some
        { hasArticleSchema := true, schemaType := schemaType,
          articleCount := articleCount, articleData := articleData,
          issues := if issues.anySet then some issues else none }

/-- The extracted product fields (`productData` in extractEcommerceData). -/
structure ProductData where
  name : Option String
  description : Option String
  sku : Option String
  gtin : Option String
  mpn : Option String
  brand : Option String
  image : Option String
  condition : Option String
  ratingValue : Option Rat
  reviewCount : Option Rat
  offers : List Offer
  price : Option Rat
  currency : Option String
  availability : Option String
deriving DecidableEq, Repr

/-- The product validation flags. -/
structure ProductIssues where
  missingProductName : Bool := false
  missingDescription : Bool := false
  missingImage : Bool := false
  missingSku : Bool := false
  missingBrand : Bool := false
  missingOffer : Bool := false
  missingPrice : Bool := false
  invalidPrice : Bool := false
  missingAvailability : Bool := false
  missingCurrency : Bool := false
  outOfStock : Bool := false
  discontinuedProduct : Bool := false
  expiredPrice : Bool := false
  multipleProducts : Bool := false
deriving DecidableEq, Repr

/-- Whether any product flag is set. -/
def ProductIssues.anySet (i : ProductIssues) : Bool :=
  i.missingProductName || i.missingDescription || i.missingImage ||
    i.missingSku || i.missingBrand || i.missingOffer || i.missingPrice ||
    i.invalidPrice || i.missingAvailability || i.missingCurrency ||
    i.outOfStock || i.discontinuedProduct || i.expiredPrice || i.multipleProducts

/-- The result of `extractEcommerceData` when a product schema is present. -/
structure EcommerceResult where
  hasProductSchema : Bool
  productData : ProductData
  issues : Option ProductIssues
deriving DecidableEq, Repr

/-- Whether a `@type` value names `Product`. -/
def isProductType (v : SVal) : Bool :=
  match v with
  | .arr ts => ts.any (fun t =>
      match t with
      | .str s => s == "Product"
      | _ => false)
  | .str s => s == "Product"
  | _ => false

/-- `CrawlManager.extractEcommerceData` (crawl-manager.ts lines 1273-1405),
with the clock explicit as `now`. -/
def extractEcommerceData (structuredData : List SObj) (now : Int) : Option EcommerceResult :=
  if structuredData.isEmpty then none
  else
    let productSchemas := structuredData.filter (fun item => isProductType (objGet item "@type"))
    match productSchemas with
    | [] => none
    | product :: _ =>
      let multipleProducts := decide (productSchemas.length > 1)
      let offers := extractOffers (objGet product "offers")
      let ratingPart : Option Rat × Option Rat :=
        match objGet product "aggregateRating" with
        | .obj rating =>
          (getSchemaNumber (objGet rating "ratingValue"),
            getSchemaNumber (jsOr (objGet rating "reviewCount") (objGet rating "ratingCount")))
        | .arr _ => (none, none)
        | _ => (none, none)
      let productData : ProductData :=
        { name := getSchemaString (objGet product "name"),
          description := getSchemaString (objGet product "description"),
          sku := getSchemaString (objGet product "sku"),
          gtin := getSchemaString (jsOr (objGet product "gtin")
            (jsOr (objGet product "gtin13") (jsOr (objGet product "gtin12") (objGet product "gtin14")))),
          mpn := getSchemaString (objGet product "mpn"),
          brand := extractBrandName (objGet product "brand"),
          image := extractFirstImage (objGet product "image"),
          condition := getSchemaString (objGet product "itemCondition"),
          ratingValue := ratingPart.1,
          reviewCount := ratingPart.2,
          offers := offers,
          price := match offers.head? with | some o => o.price | none => none,
          currency := match offers.head? with | some o => o.currency | none => none,
          availability := match offers.head? with | some o => o.availability | none => none }
      let issues : ProductIssues :=
        { missingProductName := jsFalsyStr productData.name,
          missingDescription := jsFalsyStr productData.description,
          missingImage := jsFalsyStr productData.image,
          missingSku := jsFalsyStr productData.sku && jsFalsyStr productData.gtin &&
            jsFalsyStr productData.mpn,
          missingBrand := jsFalsyStr productData.brand,
          missingOffer := !(truthy (objGet product "offers")),
          missingPrice :=
            if ¬ (truthy (objGet product "offers") = true) then true
            else productData.price.isNone,
          invalidPrice :=
            if ¬ (truthy (objGet product "offers") = true) then false
            else
              match productData.price with
              | some p => decide (p < 0)
              | none => false,
          missingAvailability :=
            if ¬ (truthy (objGet product "offers") = true) then true
            else jsFalsyStr productData.availability,
          missingCurrency :=
            if ¬ (truthy (objGet product "offers") = true) then false
            else jsFalsyStr productData.currency,
          outOfStock :=
            (match productData.availability with
            | some a => strContains (toLowerStr a.toList) ("outofstock").toList ||
                strContains (toLowerStr a.toList) ("out_of_stock").toList
            | none => false),
          discontinuedProduct :=
            (match productData.availability with
            | some a => strContains (toLowerStr a.toList) ("discontinued").toList
            | none => false),
          expiredPrice :=
            offers.any (fun offer =>
              match offer.priceValidUntil with
              | some vu =>
                (match parseIsoDateMs vu.toList with
                | some vuMs => decide (vuMs < now)
                | none => false)
              | none => false),
          multipleProducts := multipleProducts }
      some
        { hasProductSchema := true, productData := productData,
          issues := if issues.anySet then some issues else none }

end PageCrawler

namespace SitemapParser

/-- Case-insensitive prefix test; the pattern is given lower-case. -/
def isPrefixOfCI : Str → Str → Bool
  | [], _ => true
  | _ :: _, [] => false
  | p :: ps, c :: cs => p = asciiLower c && isPrefixOfCI ps cs

/-- Split at the first case-insensitive occurrence of `pat` (lower-case),
returning the part before, the matched original characters, and the rest. -/
def splitFirstCI (pat : Str) : Str → Option (Str × Str × Str)
  | [] => if pat = [] then some ([], [], []) else none
  | c :: cs =>
    if isPrefixOfCI pat (c :: cs) then some ([], (c :: cs).take pat.length, (c :: cs).drop pat.length)
    else
      match splitFirstCI pat cs with
      | some (before, m, after) => some (c :: before, m, after)
      | none => none

/-- Replace every occurrence of `pat` by `rep` (entity decoding in
`cleanUrl`); `fuel` bounds the recursion and always suffices at
`s.length + 1` for a non-empty pattern. -/
def replaceAllAux (pat rep : Str) : Nat → Str → Str
  | 0, s => s
  | fuel + 1, s =>
    match splitFirstCI pat s with
    | some (before, _, after) => before ++ rep ++ replaceAllAux pat rep fuel after
    | none => s

/-- JavaScript `String.prototype.replace` with a global pattern. -/
def replaceAll (pat rep : Str) (s : Str) : Str :=
  replaceAllAux pat rep (s.length + 1) s

/-- The blocks matched by `/<tag[^>]*>[\s\S]*?<\/tag>/gi`: from an occurrence
of `<tag`, through the first `>`, lazily to the first `</tag>`; scanning
continues after each match. -/
def extractBlocksAux (openPat closePat : Str) : Nat → Str → List Str
  | 0, _ => []
  | fuel + 1, s =>
    match splitFirstCI openPat s with
    | none => []
    | some (_, mOpen, afterOpen) =>
      match splitFirstCI ['>'] afterOpen with
      | none => []
      | some (attrs, mGt, afterGt) =>
        match splitFirstCI closePat afterGt with
        | none => []
        | some (body, mClose, rest) =>
          (mOpen ++ attrs ++ mGt ++ body ++ mClose) ::
            extractBlocksAux openPat closePat fuel rest

/-- All regex blocks for one tag in a document. -/
def extractBlocks (openPat closePat : Str) (s : Str) : List Str :=
  extractBlocksAux openPat closePat (s.length + 1) s

/-- The text matched by `/<tag[^>]*>([^<]+)<\/tag>/i`: after `<tag...>`, a
non-empty run of non-`<` characters followed literally by the closing tag;
on failure the scan resumes at the next occurrence of `<tag`. -/
def extractTagTextAux (openPat closePat : Str) : Nat → Str → Option Str
  | 0, _ => none
  | fuel + 1, s =>
    match splitFirstCI openPat s with
    | none => none
    | some (_, _, afterOpen) =>
      match splitFirstCI ['>'] afterOpen with
      | none => none
      | some (_, _, afterGt) =>
        let text := afterGt.takeWhile (fun c => ¬ (c = '<'))
        if text ≠ [] ∧ isPrefixOfCI closePat (afterGt.drop text.length) = true then some text
        else extractTagTextAux openPat closePat fuel afterOpen

/-- First `<tag ...>text</tag>` text in a block, for a lower-case tag name. -/
def extractTagText (tag : Str) (block : Str) : Option Str :=
  extractTagTextAux ('<' :: tag) ('<' :: '/' :: tag ++ ['>']) (block.length + 1) block

/-- One `<url>`/`<sitemap>` entry of a sitemap. -/
structure SitemapUrl where
  loc : Str
  lastmod : Option Str
  changefreq : Option Str
  priority : Option Rat
deriving DecidableEq, Repr

/-- `SitemapParseResult` (sitemap-parser.ts), with a bookkeeping trace of the
sitemap URLs the loop actually processed. -/
structure SitemapParseResult where
  urls : List SitemapUrl
  sitemapIndexUrls : List Str
  errors : List String
  trace : List Str
deriving Repr

/-- `SitemapParser.cleanUrl`: trim, decode the five HTML entities, validate
through the URL parser, and return the canonical serialization. -/
def cleanUrl (url : Str) : Option Str :=
  let cleaned :=
    replaceAll ("&#39;").toList [Char.ofNat 39]
      (replaceAll ("&quot;").toList ['"']
        (replaceAll ("&gt;").toList ['>']
          (replaceAll ("&lt;").toList ['<']
            (replaceAll ("&amp;").toList ['&'] (trimAscii url)))))
  match Crawler.parseUrl cleaned with
  | some parsed => some (serializeUrl parsed)
  | none => none

/-- `SitemapParser.isSameDomain`: hostname with `www.` stripped equals the
configured domain or is one of its subdomains. -/
def isSameDomain (domain : Str) (url : Str) : Bool :=
  match Crawler.parseUrl url with
  | none => false
  | some parsed =>
    let urlDomain := stripWww parsed.host
    urlDomain == domain || ('.' :: domain).isSuffixOf urlDomain

/-- `SitemapParser.parseXml` (sitemap-parser.ts lines 869-934): a body
containing `<sitemapindex` yields child sitemap locations; otherwise each
`<url>` block with a valid same-domain `<loc>` yields an entry with its
optional fields. -/
def parseXml (domain : Str) (content : Str) : SitemapParseResult :=
  if strContains content ("<sitemapindex").toList then
    let locs := (extractBlocks ("<sitemap").toList ("</sitemap>").toList content).filterMap
      (fun block => (extractTagText ("loc").toList block).bind cleanUrl)
    { urls := [], sitemapIndexUrls := locs, errors := [], trace := [] }
  else
    let urls := (extractBlocks ("<url").toList ("</url>").toList content).filterMap
      (fun block =>
        match (extractTagText ("loc").toList block).bind cleanUrl with
        | none => none
        | some loc =>
          if ¬ (isSameDomain domain loc = true) then none
          else
            some
              { loc := loc,
                lastmod := (extractTagText ("lastmod").toList block).map trimAscii,
                changefreq := (extractTagText ("changefreq").toList block).map trimAscii,
                priority :=
                  match (extractTagText ("priority").toList block).bind
                    (fun t => parseFloatQ (trimAscii t)) with
                  | some p => if 0 ≤ p ∧ p ≤ 1 then some p else none
                  | none => none })
    { urls := urls, sitemapIndexUrls := [], errors := [], trace := [] }

/-- The network as the parser sees it: each sitemap URL maps to the fetched
(and gunzipped) body, or to `none` when `fetchSitemap` returns null.  A
finite list models the finitely many reachable documents. -/
def fetchSitemap (fetchMap : List (Str × Option Str)) (url : Str) : Option Str :=
  match fetchMap.find? (fun e => e.1 == url) with
  | some e => e.2
  | none => none

/-- Every sitemap URL the given network could ever enqueue: the initial list
plus the child locations of every fetchable body. -/
def sitemapUniverse (domain : Str) (fetchMap : List (Str × Option Str))
    (initial : List Str) : Finset Str :=
  initial.toFinset ∪
    (fetchMap.filterMap (fun e => e.2)).foldr
      (fun body acc => (parseXml domain body).sitemapIndexUrls.toFinset ∪ acc) ∅

/-- The `while` loop of `SitemapParser.parse` (sitemap-parser.ts lines
788-826): stop when the queue is empty or the URL cap is reached; skip
already-processed sitemaps; otherwise mark processed, fetch, enqueue the
not-yet-processed children, and append up to the remaining capacity of URLs.
The `processed ⊆ universe` invariant justifies termination. -/
def parseLoop (domain : Str) (fetchMap : List (Str × Option Str)) (maxUrls : Nat)
    (univ : Finset Str) (queue : List Str) (processed : Finset Str)
    (acc : SitemapParseResult)
    (hq : ∀ x ∈ queue, x ∈ univ)
    (hu : ∀ u body, fetchSitemap fetchMap u = some body →
      ∀ c ∈ (parseXml domain body).sitemapIndexUrls, c ∈ univ) :
    SitemapParseResult :=
  if acc.urls.length < maxUrls then
    match hq2 : queue with
    | [] => acc
    | sitemapUrl :: rest =>
      if hp : sitemapUrl ∈ processed then
        parseLoop domain fetchMap maxUrls univ rest processed acc
          (fun x hx => hq x (hq2 ▸ List.mem_cons_of_mem _ hx)) hu
      else
        let processed1 := insert sitemapUrl processed
        match hfetch : fetchSitemap fetchMap sitemapUrl with
        | none =>
          parseLoop domain fetchMap maxUrls univ rest processed1
            { acc with trace := acc.trace ++ [sitemapUrl] }
            (fun x hx => hq x (hq2 ▸ List.mem_cons_of_mem _ hx)) hu
        | some content =>
          let parsed := parseXml domain content
          let children := parsed.sitemapIndexUrls.filter (fun childUrl => childUrl ∉ processed1)
          let remaining := maxUrls - acc.urls.length
          parseLoop domain fetchMap maxUrls univ (rest ++ children) processed1
            { urls := acc.urls ++ parsed.urls.take remaining,
              sitemapIndexUrls := acc.sitemapIndexUrls ++ parsed.sitemapIndexUrls,
              errors := acc.errors ++ parsed.errors,
              trace := acc.trace ++ [sitemapUrl] }
            (fun x hx => by
              rcases List.mem_append.mp hx with hr | hc
              · exact hq x (hq2 ▸ List.mem_cons_of_mem _ hr)
              · exact hu sitemapUrl content hfetch x (List.mem_of_mem_filter hc))
            hu
  else acc
termination_by ((univ \ processed).card, queue.length)
decreasing_by
  · exact Prod.Lex.right _ (by simp [hq2])
  · refine Prod.Lex.left _ _ ?_
    have hmem : sitemapUrl ∈ univ \ processed :=
      Finset.mem_sdiff.mpr ⟨hq sitemapUrl (List.mem_cons_self _ _), hp⟩
    have : univ \ insert sitemapUrl processed = (univ \ processed).erase sitemapUrl := by
      ext a
      simp [Finset.mem_sdiff, Finset.mem_erase, Finset.mem_insert]
      tauto
    rw [this]
    exact Finset.card_erase_lt_of_mem hmem
  · refine Prod.Lex.left _ _ ?_
    have hmem : sitemapUrl ∈ univ \ processed :=
      Finset.mem_sdiff.mpr ⟨hq sitemapUrl (List.mem_cons_self _ _), hp⟩
    have : univ \ insert sitemapUrl processed = (univ \ processed).erase sitemapUrl := by
      ext a
      simp [Finset.mem_sdiff, Finset.mem_erase, Finset.mem_insert]
      tauto
    rw [this]
    exact Finset.card_erase_lt_of_mem hmem

/-- `SitemapParser.parse`: start from the given sitemap URLs, or from the two
conventional locations when none are given. -/
def parse (domain : Str) (fetchMap : List (Str × Option Str)) (maxUrls : Nat)
    (sitemapUrls : List Str) : SitemapParseResult :=
  let sitemapsToProcess :=
    if sitemapUrls.isEmpty then
      [("https://").toList ++ domain ++ ("/sitemap.xml").toList,
        ("https://").toList ++ domain ++ ("/sitemap_index.xml").toList]
    else sitemapUrls
  parseLoop domain fetchMap maxUrls (sitemapUniverse domain fetchMap sitemapsToProcess)
    sitemapsToProcess ∅
    { urls := [], sitemapIndexUrls := [], errors := [], trace := [] }
    (fun x hx => Finset.mem_union_left _ (List.mem_toFinset.mpr hx))
    (fun u body hbody c hc => by
      refine Finset.mem_union_right _ ?_
      have hbodyMem : body ∈ fetchMap.filterMap (fun e => e.2) := by
        unfold fetchSitemap at hbody
        cases hfind : fetchMap.find? (fun e => e.1 == u) with
        | none => rw [hfind] at hbody; cases hbody
        | some e =>
          rw [hfind] at hbody
          exact List.mem_filterMap.mpr ⟨e, List.mem_of_find?_eq_some hfind, hbody⟩
      have hgen : ∀ l : List Str, body ∈ l →
          c ∈ l.foldr
            (fun b acc => (parseXml domain b).sitemapIndexUrls.toFinset ∪ acc) ∅ := by
        intro l
        induction l with
        | nil => intro hl; cases hl
        | cons head tail ih =>
          intro hl
          rcases List.mem_cons.mp hl with hEq | hTail
          · subst hEq
            exact Finset.mem_union_left _ (List.mem_toFinset.mpr hc)
          · exact Finset.mem_union_right _ (ih hTail)
      exact hgen _ hbodyMem)

end SitemapParser

namespace CrawlManager

/-- The sorted parameter list `normalizeUrl` computes for a parsed URL. -/
def sortedQuery (u : Url) : List (Str × Str) :=
  List.insertionSort entryLe (u.query.getD [])

/-- The URL record `normalizeUrl` re-serializes: fragment dropped, query
replaced by its sorted parameter list (or dropped when empty). -/
def normReplaced (u : Url) : Url :=
  { u with
    fragment := none,
    query := if sortedQuery u = [] then none else some (sortedQuery u) }

/-- The string `normalizeUrl` produces for a parsed URL record. -/
def normForm (u : Url) : Str :=
  if (serializeUrl (normReplaced u)).getLast? = some '/' ∧ u.path ≠ ['/']
  then (serializeUrl (normReplaced u)).dropLast
  else serializeUrl (normReplaced u)

/-- A permissive configuration used to instantiate the admission theorem. -/
def sampleConfig : CrawlConfig :=
  { settings :=
      { max_pages := 10, max_depth := 3, follow_subdomains := false,
        include_patterns := [], exclude_patterns := [] },
    projectDomain := ("example.com").toList,
    robotsAllowed := fun _ => true }

/-- A sample admission call for the admission theorem. -/
def sampleCall : AdmitCall :=
  { url := ("https://example.com/about").toList, depth := 1, parentUrl := none,
    discoveredVia := .crawl }

end CrawlManager

namespace RobotsParser

/-- C5 claim-words reading: a `User-agent` line naming exactly this crawler. -/
def isUaLineFor (c : Str) (line : Str) : Bool :=
  let t := toLowerStr (trimAscii line)
  ("user-agent:").toList.isPrefixOf t && trimAscii (t.drop 11) == toLowerStr c

/-- C5 claim-words reading: a blank, comment, or `User-agent` line, i.e. what
the claim treats as ending a scope. -/
def isBoundaryLine (line : Str) : Bool :=
  let t := toLowerStr (trimAscii line)
  t == ([] : Str) || ("#").toList.isPrefixOf t || ("user-agent:").toList.isPrefixOf t

/-- C5 claim-words reading: a `Disallow: /` line. -/
def isDisallowRootLine (line : Str) : Bool :=
  let t := toLowerStr (trimAscii line)
  ("disallow:").toList.isPrefixOf t && trimAscii (t.drop 9) == ['/']

/-- C5 claim-words reading: an `Allow: /` line. -/
def isAllowRootLine (line : Str) : Bool :=
  let t := toLowerStr (trimAscii line)
  ("allow:").toList.isPrefixOf t && trimAscii (t.drop 6) == ['/']

/-- C5 claim-words reading: the first root directive before the next blank,
comment, or `User-agent` line. -/
def scopeVerdict : List Str → Option Bool
  | [] => none
  | line :: rest =>
    if isBoundaryLine line then none
    else if isDisallowRootLine line then some false
    else if isAllowRootLine line then some true
    else scopeVerdict rest

/-- C5 claim-words reading: scan for a `User-agent` line matching the crawler
followed by `Disallow: /` or `Allow: /` before the next blank, comment, or
`User-agent` line. -/
def claimScan (c : Str) : List Str → Option Bool
  | [] => none
  | line :: rest =>
    if isUaLineFor c line then
      match scopeVerdict rest with
      | some v => some v
      | none => claimScan c rest
    else claimScan c rest

/-- C5's tri-state classification exactly as the claim words it (transcribed
from the claim, to be compared with the code's `getAiCrawlerAccess`). -/
def claimAiAccess (robotsTxt : Str) (c : Str) : Option Bool :=
  claimScan c (splitChar (Char.ofNat 10) robotsTxt)

/-- The per-line scan of the amended C5 reading: the accumulated user-agent
group exactly as `aiLineStep` keeps it, plus the list of verdicts the
effective root directives record for one fixed crawler. -/
def aiDirStep (c : Str) (st : List Str × List Bool) (line : Str) :
    List Str × List Bool :=
  let trimmedLine := toLowerStr (trimAscii line)
  if ("user-agent:").toList.isPrefixOf trimmedLine then
    let ua := trimAscii (trimmedLine.drop 11)
    if ua = ['*'] ∨ AI_CRAWLERS.any (fun c2 => toLowerStr c2 == ua) then
      (st.1 ++ [ua], st.2)
    else ([], st.2)
  else if ("disallow:").toList.isPrefixOf trimmedLine ∧ st.1 ≠ [] then
    let path := trimAscii (trimmedLine.drop 9)
    if path = ['/'] ∨ path = [] then
      (st.1, if toLowerStr c ∈ st.1 then st.2 ++ [false] else st.2)
    else st
  else if ("allow:").toList.isPrefixOf trimmedLine ∧ st.1 ≠ [] then
    let path := trimAscii (trimmedLine.drop 6)
    if path = ['/'] ∨ path = [] then
      (st.1, if toLowerStr c ∈ st.1 then st.2 ++ [true] else st.2)
    else st
  else if trimmedLine = [] ∨ ("#").toList.isPrefixOf trimmedLine then
    ([], st.2)
  else st

/-- All verdicts the effective root directives of a robots.txt record for one
crawler, in scan order. -/
def aiDirectives (robotsTxt : Str) (c : Str) : List Bool :=
  ((splitChar (Char.ofNat 10) robotsTxt).foldl (aiDirStep c) ([], [])).2

end RobotsParser

namespace LinkQualityAnalyzer

/-- A sample sitemap-discovered page with no incoming links. -/
def sampleOrphanRow : PageRow :=
  { id := "1", url := "https://e.com/orphan", page_depth := 2,
    internal_links_received := 0, status_code := 200, discovered_via := "sitemap" }

/-- Sample crawled-page rows for the orphan-analysis witness. -/
def samplePages : List PageRow :=
  [sampleOrphanRow,
   { id := "2", url := "https://e.com/linked", page_depth := 1,
     internal_links_received := 3, status_code := 200, discovered_via := "crawl" }]

end LinkQualityAnalyzer

/-- Structured data for the extraction-clock counterexample: a single article
whose `datePublished` lies between the two observation instants. -/
def c2Article : List SObj :=
  [[("@type", SVal.str "Article"),
    ("headline", SVal.str "A headline that is long enough to pass"),
    ("datePublished", SVal.str "2030-01-01")]]

/-! ## Theorems -/

theorem char_toNat_inj {c d : Char} (h : c.toNat = d.toNat) : c = d := by
  have h1 : Char.ofNat c.toNat = Char.ofNat d.toNat := by rw [h]
  rwa [Char.ofNat_toNat, Char.ofNat_toNat] at h1

theorem char_ne_of_toNat_ne {c d : Char} (h : c.toNat ≠ d.toNat) : c ≠ d :=
  fun he => h (he ▸ rfl)

theorem char_eq_iff (c d : Char) : (c = d) ↔ c.toNat = d.toNat :=
  ⟨fun h => h ▸ rfl, char_toNat_inj⟩

theorem toNat_ofNat_small {n : Nat} (h : n < 55296) : (Char.ofNat n).toNat = n := by
  have hv : n.isValidChar := Or.inl h
  simp [Char.ofNat, hv, Char.ofNatAux, Char.toNat, UInt32.toNat, BitVec.toNat_ofNat]

theorem spanNot_append_eq (stop : Char → Bool) (s : Str) :
    (spanNot stop s).1 ++ (spanNot stop s).2 = s := by
  induction s with
  | nil => rfl
  | cons c cs ih =>
    by_cases h : stop c = true
    · simp [spanNot, h]
    · simp [spanNot, h, ih]

theorem spanNot_eq_of_all (stop : Char → Bool) (xs ys : Str)
    (hxs : ∀ c ∈ xs, stop c = false)
    (hys : ys = [] ∨ ∃ c cs, ys = c :: cs ∧ stop c = true) :
    spanNot stop (xs ++ ys) = (xs, ys) := by
  induction xs with
  | nil =>
    rcases hys with h | ⟨c, cs, h, hc⟩
    · subst h; rfl
    · subst h; simp [spanNot, hc]
  | cons x xs ih =>
    have hx : stop x = false := hxs x (List.mem_cons_self _ _)
    simp [spanNot, hx, ih (fun c hc => hxs c (List.mem_cons_of_mem _ hc))]

theorem splitChar_eq_single (sep : Char) (p : Str) (h : ∀ c ∈ p, ¬ c = sep) :
    splitChar sep p = [p] := by
  induction p with
  | nil => rfl
  | cons c cs ih =>
    have hc : ¬ c = sep := h c (List.mem_cons_self _ _)
    simp [splitChar, hc, ih (fun d hd => h d (List.mem_cons_of_mem _ hd))]

theorem splitChar_append_sep_cons (sep : Char) (p rest : Str)
    (h : ∀ c ∈ p, ¬ c = sep) :
    splitChar sep (p ++ sep :: rest) = p :: splitChar sep rest := by
  induction p with
  | nil => simp [splitChar]
  | cons c cs ih =>
    have hc : ¬ c = sep := h c (List.mem_cons_self _ _)
    simp [splitChar, hc, ih (fun d hd => h d (List.mem_cons_of_mem _ hd))]

theorem splitChar_joinSep (sep : Char) (pieces : List Str)
    (hne : pieces ≠ [])
    (h : ∀ p ∈ pieces, ∀ c ∈ p, ¬ c = sep) :
    splitChar sep (joinSep sep pieces) = pieces := by
  induction pieces with
  | nil => exact absurd rfl hne
  | cons p ps ih =>
    cases ps with
    | nil =>
      exact splitChar_eq_single sep p (h p (List.mem_cons_self _ _))
    | cons q qs =>
      have hstep : joinSep sep (p :: q :: qs) = p ++ sep :: joinSep sep (q :: qs) := rfl
      rw [hstep, splitChar_append_sep_cons sep p _ (h p (List.mem_cons_self _ _))]
      rw [ih (by simp) (fun r hr => h r (List.mem_cons_of_mem _ hr))]

theorem formUnreserved_toNat {c : Char} (h : formUnreservedOk c = true) :
    (48 ≤ c.toNat ∧ c.toNat ≤ 57) ∨ (65 ≤ c.toNat ∧ c.toNat ≤ 90) ∨
      (97 ≤ c.toNat ∧ c.toNat ≤ 122) ∨ c.toNat = 42 ∨ c.toNat = 45 ∨
      c.toNat = 46 ∨ c.toNat = 95 := by
  simp only [formUnreservedOk, isAsciiAlphaNum, isAsciiAlpha, isAsciiDigit,
    Bool.or_eq_true, decide_eq_true_eq, Bool.and_eq_true, char_eq_iff,
    show ('*').toNat = 42 from rfl, show ('-').toNat = 45 from rfl,
    show ('.').toNat = 46 from rfl, show ('_').toNat = 95 from rfl] at h
  omega

theorem hexDigitVal_hexDigitUpper {n : Nat} (h : n < 16) :
    hexDigitVal (hexDigitUpper n) = some n := by
  have : ∀ m : Nat, m < 16 → hexDigitVal (hexDigitUpper m) = some m := by decide
  exact this n h

/-- Every character the form encoder emits: its code point, for charset
reasoning. -/
theorem formEncodeStr_chars {s : Str} {c : Char} (hc : c ∈ formEncodeStr s)
    (hs : ∀ d ∈ s, d.toNat < 128) :
    (48 ≤ c.toNat ∧ c.toNat ≤ 57) ∨ (65 ≤ c.toNat ∧ c.toNat ≤ 90) ∨
      (97 ≤ c.toNat ∧ c.toNat ≤ 122) ∨ c.toNat = 42 ∨ c.toNat = 45 ∨
      c.toNat = 46 ∨ c.toNat = 95 ∨ c.toNat = 43 ∨ c.toNat = 37 := by
  simp only [formEncodeStr, List.mem_flatten, List.mem_map] at hc
  obtain ⟨piece, ⟨d, hd, hpiece⟩, hcpiece⟩ := hc
  subst hpiece
  unfold formEncodeChar at hcpiece
  by_cases hu : formUnreservedOk d = true
  · rw [if_pos hu] at hcpiece
    simp only [List.mem_singleton] at hcpiece
    subst hcpiece
    rcases formUnreserved_toNat hu with h | h | h | h | h | h | h <;> tauto
  · rw [if_neg hu] at hcpiece
    by_cases hsp : d = ' '
    · rw [if_pos hsp] at hcpiece
      simp only [List.mem_singleton] at hcpiece
      subst hcpiece
      right; right; right; right; right; right; right; left; rfl
    · rw [if_neg hsp] at hcpiece
      have hd128 : d.toNat < 128 := hs d hd
      have hdiv : d.toNat / 16 < 10 := by omega
      have hmod : d.toNat % 16 < 16 := by omega
      simp only [List.mem_cons, List.mem_singleton, List.not_mem_nil, or_false] at hcpiece
      rcases hcpiece with h | h | h
      · subst h
        right; right; right; right; right; right; right; right; rfl
      · subst h
        unfold hexDigitUpper
        rw [if_pos hdiv]
        have : (Char.ofNat (48 + d.toNat / 16)).toNat = 48 + d.toNat / 16 :=
          toNat_ofNat_small (by omega)
        omega
      · subst h
        unfold hexDigitUpper
        by_cases hm : d.toNat % 16 < 10
        · rw [if_pos hm]
          have : (Char.ofNat (48 + d.toNat % 16)).toNat = 48 + d.toNat % 16 :=
            toNat_ofNat_small (by omega)
          omega
        · rw [if_neg hm]
          have : (Char.ofNat (55 + d.toNat % 16)).toNat = 55 + d.toNat % 16 :=
            toNat_ofNat_small (by omega)
          omega

theorem formEncodeStr_cons (c : Char) (s : Str) :
    formEncodeStr (c :: s) = formEncodeChar c ++ formEncodeStr s := by
  simp [formEncodeStr]

theorem percentDecode_formEncode (s : Str) (h : ∀ c ∈ s, c.toNat < 128) :
    percentDecode (formEncodeStr s) = some s := by
  induction s with
  | nil => rfl
  | cons c cs ih =>
    have hc : c.toNat < 128 := h c (List.mem_cons_self _ _)
    have ihr := ih (fun d hd => h d (List.mem_cons_of_mem _ hd))
    rw [formEncodeStr_cons]
    unfold formEncodeChar
    by_cases hu : formUnreservedOk c = true
    · rw [if_pos hu]
      have hnums := formUnreserved_toNat hu
      have hplus : ¬ c = '+' := char_ne_of_toNat_ne (by
        show c.toNat ≠ 43
        rcases hnums with h1 | h1 | h1 | h1 | h1 | h1 | h1 <;> omega)
      have hperc : ¬ c = '%' := char_ne_of_toNat_ne (by
        show c.toNat ≠ 37
        rcases hnums with h1 | h1 | h1 | h1 | h1 | h1 | h1 <;> omega)
      rw [percentDecode.eq_def]
      simp [hplus, hperc, ihr]
    · rw [if_neg hu]
      by_cases hsp : c = ' '
      · rw [if_pos hsp]
        subst hsp
        rw [percentDecode.eq_def]
        simp [ihr]
      · rw [if_neg hsp]
        have hdiv : c.toNat / 16 < 16 := by omega
        have hmod : c.toNat % 16 < 16 := by omega
        rw [List.cons_append, percentDecode.eq_def]
        simp only [List.cons_append, List.nil_append,
          reduceIte, hexDigitVal_hexDigitUpper hdiv, hexDigitVal_hexDigitUpper hmod]
        have hval : c.toNat / 16 * 16 + c.toNat % 16 = c.toNat := by omega
        rw [hval]
        simp [hc, Char.ofNat_toNat, ihr]

theorem formEncodeStr_ne (s : Str) (hs : ∀ d ∈ s, d.toNat < 128) (n : Nat)
    (hn : ¬ ((48 ≤ n ∧ n ≤ 57) ∨ (65 ≤ n ∧ n ≤ 90) ∨ (97 ≤ n ∧ n ≤ 122) ∨
      n = 42 ∨ n = 45 ∨ n = 46 ∨ n = 95 ∨ n = 43 ∨ n = 37)) :
    ∀ c ∈ formEncodeStr s, c.toNat ≠ n := by
  intro c hc he
  have := formEncodeStr_chars hc hs
  subst he
  exact hn this

theorem parsePair_formEncode (k v : Str)
    (hk : ∀ c ∈ k, c.toNat < 128) (hv : ∀ c ∈ v, c.toNat < 128) :
    parsePair (formEncodeStr k ++ '=' :: formEncodeStr v) = some (k, v) := by
  have hkeq : ∀ c ∈ formEncodeStr k, (fun c => decide (c = '=')) c = false := by
    intro c hc
    have := formEncodeStr_ne k hk 61 (by omega) c hc
    simp only [decide_eq_false_iff_not]
    exact fun he => this (he ▸ rfl)
  unfold parsePair
  rw [spanNot_eq_of_all _ _ _ hkeq (Or.inr ⟨'=', formEncodeStr v, rfl, by simp⟩)]
  simp only
  rw [percentDecode_formEncode k hk, percentDecode_formEncode v hv]

theorem parseQuery_encodeQuery (pairs : List (Str × Str))
    (hp : ∀ p ∈ pairs, (∀ c ∈ p.1, c.toNat < 128) ∧ ∀ c ∈ p.2, c.toNat < 128) :
    parseQuery (encodeQuery pairs) = some pairs := by
  cases hpe : pairs with
  | nil => rfl
  | cons p0 ps =>
    subst hpe
    unfold parseQuery encodeQuery
    set pieces := (p0 :: ps).map (fun p => formEncodeStr p.1 ++ '=' :: formEncodeStr p.2)
      with hpieces
    have hnosep : ∀ q ∈ pieces, ∀ c ∈ q, ¬ c = '&' := by
      intro q hq c hc he
      rw [hpieces] at hq
      simp only [List.mem_map] at hq
      obtain ⟨pr, hpr, hq2⟩ := hq
      subst hq2
      rcases List.mem_append.mp hc with h1 | h1
      · exact formEncodeStr_ne pr.1 (hp pr hpr).1 38 (by omega) c h1 (he ▸ rfl)
      · rcases List.mem_cons.mp h1 with h2 | h2
        · subst h2; exact absurd he (by decide)
        · exact formEncodeStr_ne pr.2 (hp pr hpr).2 38 (by omega) c h2 (he ▸ rfl)
    rw [splitChar_joinSep '&' pieces (by simp [hpieces]) hnosep]
    have hfilter : pieces.filter (fun p => p ≠ []) = pieces := by
      rw [List.filter_eq_self]
      intro a ha
      rw [hpieces] at ha
      simp only [List.mem_map] at ha
      obtain ⟨pr, _, ha2⟩ := ha
      subst ha2
      simp
    rw [hfilter, hpieces]
    have : ∀ (l : List (Str × Str)), (∀ p ∈ l, (∀ c ∈ p.1, c.toNat < 128) ∧
        ∀ c ∈ p.2, c.toNat < 128) →
        parsePairs (l.map (fun p => formEncodeStr p.1 ++ '=' :: formEncodeStr p.2)) = some l := by
      intro l
      induction l with
      | nil => intro _; rfl
      | cons q qs ih =>
        intro hl
        have hq := hl q (List.mem_cons_self _ _)
        simp only [List.map_cons, parsePairs,
          parsePair_formEncode q.1 q.2 hq.1 hq.2,
          ih (fun r hr => hl r (List.mem_cons_of_mem _ hr))]
    exact this (p0 :: ps) hp

theorem isAsciiDigit_toNat {c : Char} (h : isAsciiDigit c = true) :
    48 ≤ c.toNat ∧ c.toNat ≤ 57 := by
  simp only [isAsciiDigit, Bool.and_eq_true, decide_eq_true_eq] at h
  exact h

theorem isAsciiAlpha_toNat {c : Char} (h : isAsciiAlpha c = true) :
    (97 ≤ c.toNat ∧ c.toNat ≤ 122) ∨ (65 ≤ c.toNat ∧ c.toNat ≤ 90) := by
  simp only [isAsciiAlpha, Bool.or_eq_true, Bool.and_eq_true, decide_eq_true_eq] at h
  exact h

theorem schemeCharOk_toNat {c : Char} (h : schemeCharOk c = true) :
    (48 ≤ c.toNat ∧ c.toNat ≤ 57) ∨ (65 ≤ c.toNat ∧ c.toNat ≤ 90) ∨
      (97 ≤ c.toNat ∧ c.toNat ≤ 122) ∨ c.toNat = 43 ∨ c.toNat = 45 ∨ c.toNat = 46 := by
  simp only [schemeCharOk, isAsciiAlphaNum, isAsciiAlpha, isAsciiDigit,
    Bool.or_eq_true, Bool.and_eq_true, decide_eq_true_eq, char_eq_iff,
    show ('+').toNat = 43 from rfl, show ('-').toNat = 45 from rfl,
    show ('.').toNat = 46 from rfl] at h
  omega

theorem hostCharOk_toNat {c : Char} (h : hostCharOk c = true) :
    (97 ≤ c.toNat ∧ c.toNat ≤ 122) ∨ (48 ≤ c.toNat ∧ c.toNat ≤ 57) ∨
      c.toNat = 46 ∨ c.toNat = 45 := by
  simp only [hostCharOk, isAsciiDigit, Bool.or_eq_true, Bool.and_eq_true,
    decide_eq_true_eq, char_eq_iff, show ('.').toNat = 46 from rfl,
    show ('-').toNat = 45 from rfl] at h
  omega

theorem pathCharOk_toNat {c : Char} (h : pathCharOk c = true) :
    (48 ≤ c.toNat ∧ c.toNat ≤ 57) ∨ (65 ≤ c.toNat ∧ c.toNat ≤ 90) ∨
      (97 ≤ c.toNat ∧ c.toNat ≤ 122) ∨ c.toNat = 33 ∨ c.toNat = 36 ∨
      c.toNat = 38 ∨ c.toNat = 40 ∨ c.toNat = 41 ∨ c.toNat = 42 ∨
      c.toNat = 43 ∨ c.toNat = 44 ∨ c.toNat = 45 ∨ c.toNat = 46 ∨
      c.toNat = 47 ∨ c.toNat = 58 ∨ c.toNat = 59 ∨ c.toNat = 61 ∨
      c.toNat = 64 ∨ c.toNat = 95 ∨ c.toNat = 126 ∨ c.toNat = 37 ∨
      c.toNat = 39 := by
  simp only [pathCharOk, isAsciiAlphaNum, isAsciiAlpha, isAsciiDigit,
    Bool.or_eq_true, Bool.and_eq_true, decide_eq_true_eq, char_eq_iff,
    show ('!').toNat = 33 from rfl, show ('$').toNat = 36 from rfl,
    show ('&').toNat = 38 from rfl, show ('(').toNat = 40 from rfl,
    show (')').toNat = 41 from rfl, show ('*').toNat = 42 from rfl,
    show ('+').toNat = 43 from rfl, show (',').toNat = 44 from rfl,
    show ('-').toNat = 45 from rfl, show ('.').toNat = 46 from rfl,
    show ('/').toNat = 47 from rfl, show (':').toNat = 58 from rfl,
    show (';').toNat = 59 from rfl, show ('=').toNat = 61 from rfl,
    show ('@').toNat = 64 from rfl, show ('_').toNat = 95 from rfl,
    show ('~').toNat = 126 from rfl, show ('%').toNat = 37 from rfl,
    show (Char.ofNat 39).toNat = 39 from rfl] at h
  omega

theorem queryCharOk_toNat {c : Char} (h : queryCharOk c = true) :
    33 ≤ c.toNat ∧ c.toNat ≤ 126 ∧ c.toNat ≠ 34 ∧ c.toNat ≠ 60 ∧
      c.toNat ≠ 62 ∧ c.toNat ≠ 39 := by
  simp only [queryCharOk, Bool.and_eq_true, decide_eq_true_eq, Bool.not_eq_true',
    Bool.or_eq_false_iff, decide_eq_false_iff_not, char_eq_iff,
    show ('"').toNat = 34 from rfl, show ('<').toNat = 60 from rfl,
    show ('>').toNat = 62 from rfl, show (Char.ofNat 39).toNat = 39 from rfl] at h
  omega

theorem fragCharOk_toNat {c : Char} (h : fragCharOk c = true) :
    33 ≤ c.toNat ∧ c.toNat ≤ 126 ∧ c.toNat ≠ 34 ∧ c.toNat ≠ 60 ∧
      c.toNat ≠ 62 ∧ c.toNat ≠ 96 := by
  simp only [fragCharOk, Bool.and_eq_true, decide_eq_true_eq, Bool.not_eq_true',
    Bool.or_eq_false_iff, decide_eq_false_iff_not, char_eq_iff,
    show ('"').toNat = 34 from rfl, show ('<').toNat = 60 from rfl,
    show ('>').toNat = 62 from rfl, show (Char.ofNat 96).toNat = 96 from rfl] at h
  omega

theorem isAsciiAlpha_of_toNat {c : Char}
    (h : (97 ≤ c.toNat ∧ c.toNat ≤ 122) ∨ (65 ≤ c.toNat ∧ c.toNat ≤ 90)) :
    isAsciiAlpha c = true := by
  simp only [isAsciiAlpha, Bool.or_eq_true, Bool.and_eq_true, decide_eq_true_eq]
  omega

theorem schemeCharOk_of_toNat {c : Char}
    (h : (48 ≤ c.toNat ∧ c.toNat ≤ 57) ∨ (65 ≤ c.toNat ∧ c.toNat ≤ 90) ∨
      (97 ≤ c.toNat ∧ c.toNat ≤ 122) ∨ c.toNat = 43 ∨ c.toNat = 45 ∨ c.toNat = 46) :
    schemeCharOk c = true := by
  simp only [schemeCharOk, isAsciiAlphaNum, isAsciiAlpha, isAsciiDigit,
    Bool.or_eq_true, Bool.and_eq_true, decide_eq_true_eq, char_eq_iff,
    show ('+').toNat = 43 from rfl, show ('-').toNat = 45 from rfl,
    show ('.').toNat = 46 from rfl]
  omega

theorem asciiLower_toNat (c : Char) :
    (asciiLower c).toNat = if 65 ≤ c.toNat ∧ c.toNat ≤ 90 then c.toNat + 32 else c.toNat := by
  unfold asciiLower
  split
  · next h => exact toNat_ofNat_small (by omega)
  · rfl

theorem asciiLower_eq_self {c : Char} (h : ¬ (65 ≤ c.toNat ∧ c.toNat ≤ 90)) :
    asciiLower c = c := by
  unfold asciiLower
  exact if_neg h

theorem asciiLower_idem (c : Char) : asciiLower (asciiLower c) = asciiLower c := by
  apply asciiLower_eq_self
  rw [asciiLower_toNat c]
  split <;> omega

theorem toLowerStr_idem (s : Str) : toLowerStr (toLowerStr s) = toLowerStr s := by
  unfold toLowerStr
  rw [List.map_map]
  exact List.map_congr_left (fun c _ => asciiLower_idem c)

theorem toLowerStr_eq_self {s : Str} (h : ∀ c ∈ s, ¬ (65 ≤ c.toNat ∧ c.toNat ≤ 90)) :
    toLowerStr s = s := by
  unfold toLowerStr
  induction s with
  | nil => rfl
  | cons c cs ih =>
    simp only [List.map_cons, List.cons.injEq]
    exact ⟨asciiLower_eq_self (h c (List.mem_cons_self _ _)),
      ih (fun d hd => h d (List.mem_cons_of_mem _ hd))⟩

theorem schemeOk_toLower {s : Str} (h : schemeOk s = true) :
    schemeOk (toLowerStr s) = true := by
  cases s with
  | nil => exact absurd h (by decide)
  | cons c cs =>
    simp only [schemeOk, Bool.and_eq_true, List.all_eq_true] at h
    show schemeOk (asciiLower c :: cs.map asciiLower) = true
    simp only [schemeOk, Bool.and_eq_true, List.all_eq_true]
    constructor
    · apply isAsciiAlpha_of_toNat
      rw [asciiLower_toNat c]
      rcases isAsciiAlpha_toNat h.1 with h1 | h1 <;> (split <;> omega)
    · intro d hd
      rw [List.mem_map] at hd
      obtain ⟨d0, hd0, hdeq⟩ := hd
      subst hdeq
      apply schemeCharOk_of_toNat
      rw [asciiLower_toNat d0]
      rcases schemeCharOk_toNat (h.2 d0 hd0) with h1 | h1 | h1 | h1 | h1 | h1 <;>
        (split <;> omega)

theorem natDigits_digits (n : Nat) : ∀ c ∈ natDigits n, isAsciiDigit c = true := by
  induction n using Nat.strong_induction_on with
  | _ n ih =>
    rw [natDigits]
    split
    · next h =>
      intro c hc
      simp only [List.mem_singleton] at hc
      subst hc
      simp only [isAsciiDigit, toNat_ofNat_small (show 48 + n < 55296 by omega),
        Bool.and_eq_true, decide_eq_true_eq]
      omega
    · next h =>
      intro c hc
      rcases List.mem_append.mp hc with h1 | h1
      · exact ih (n / 10) (Nat.div_lt_self (by omega) (by omega)) c h1
      · simp only [List.mem_singleton] at h1
        subst h1
        simp only [isAsciiDigit, toNat_ofNat_small (show 48 + n % 10 < 55296 by omega),
          Bool.and_eq_true, decide_eq_true_eq]
        omega

theorem natDigits_ne_nil (n : Nat) : natDigits n ≠ [] := by
  rw [natDigits]
  split
  · simp
  · simp

theorem digitsToNat_append_digit (s : Str) (c : Char) :
    digitsToNat (s ++ [c]) = digitsToNat s * 10 + (c.toNat - 48) := by
  unfold digitsToNat
  rw [List.foldl_append]
  rfl

theorem digitsToNat_natDigits (n : Nat) : digitsToNat (natDigits n) = n := by
  induction n using Nat.strong_induction_on with
  | _ n ih =>
    rw [natDigits]
    split
    · next h =>
      show digitsToNat [Char.ofNat (48 + n)] = n
      unfold digitsToNat
      simp [toNat_ofNat_small (show 48 + n < 55296 by omega)]
    · next h =>
      rw [digitsToNat_append_digit, ih (n / 10) (Nat.div_lt_self (by omega) (by omega)),
        toNat_ofNat_small (show 48 + n % 10 < 55296 by omega)]
      omega

theorem splitScheme_append (sch rest : Str) (h : ∀ c ∈ sch, ¬ c = ':') :
    splitScheme (sch ++ ':' :: '/' :: '/' :: rest) = some (sch, rest) := by
  induction sch with
  | nil => rfl
  | cons c cs ih =>
    have hc : ¬ c = ':' := h c (List.mem_cons_self _ _)
    rw [List.cons_append, splitScheme.eq_def]
    simp only [if_neg hc]
    rw [ih (fun d hd => h d (List.mem_cons_of_mem _ hd))]

theorem percentDecode_ascii :
    ∀ (q r : Str), (∀ c ∈ q, c.toNat < 128) → percentDecode q = some r →
      ∀ c ∈ r, c.toNat < 128 := by
  intro q
  induction q using percentDecode.induct with
  | case1 =>
    intro r _ h
    simp only [percentDecode] at h
    injection h with h2
    subst h2
    intro c hc
    cases hc
  | case2 cs hih =>
    intro r hq h
    rw [percentDecode.eq_def] at h
    simp only [reduceIte] at h
    rcases Option.map_eq_some'.mp h with ⟨r0, hr0, hr⟩
    subst hr
    intro c hc
    rcases List.mem_cons.mp hc with rfl | hc2
    · decide
    · exact hih r0 (fun d hd => hq d (List.mem_cons_of_mem _ hd)) hr0 c hc2
  | case3 c1 c2 cs2 v1 v2 hx2 hx1 hlt hplus hih =>
    intro r hq h
    rw [percentDecode.eq_def] at h
    simp only [reduceIte, hx1, hx2, if_pos hlt] at h
    rcases Option.map_eq_some'.mp h with ⟨r0, hr0, hr⟩
    subst hr
    intro c hc
    rcases List.mem_cons.mp hc with rfl | hc2
    · rw [toNat_ofNat_small (by omega)]; omega
    · refine hih r0 (fun d hd => hq d ?_) hr0 c hc2
      simp only [List.mem_cons] at hd ⊢
      tauto
  | case4 c1 c2 cs2 v1 v2 hx2 hx1 hge hplus =>
    intro r hq h
    rw [percentDecode.eq_def] at h
    simp only [reduceIte, hx1, hx2, if_neg hge] at h
    cases h
  | case5 c1 c2 cs2 hnohex hplus hih =>
    intro r hq h
    rw [percentDecode.eq_def] at h
    simp only [reduceIte] at h
    rw [if_neg hplus] at h
    rcases Option.map_eq_some'.mp h with ⟨r0, hr0, hr⟩
    subst hr
    intro c hc
    rcases List.mem_cons.mp hc with rfl | hc2
    · decide
    · exact hih r0 (fun d hd => hq d (List.mem_cons_of_mem _ hd)) hr0 c hc2
  | case6 c1 hplus hih =>
    intro r hq h
    rw [percentDecode.eq_def] at h
    simp only [reduceIte] at h
    rcases Option.map_eq_some'.mp h with ⟨r0, hr0, hr⟩
    subst hr
    intro c hc
    rcases List.mem_cons.mp hc with rfl | hc2
    · decide
    · exact hih r0 (fun d hd => hq d (List.mem_cons_of_mem _ hd)) hr0 c hc2
  | case7 =>
    intro r _ h
    rw [percentDecode.eq_def] at h
    simp only [reduceIte] at h
    injection h with h2
    subst h2
    intro c hc
    rcases List.mem_cons.mp hc with rfl | hc2
    · decide
    · cases hc2
  | case8 c cs hplus hperc hih =>
    intro r hq h
    rw [percentDecode.eq_def] at h
    simp only [if_neg hplus, if_neg hperc] at h
    rcases Option.map_eq_some'.mp h with ⟨r0, hr0, hr⟩
    subst hr
    intro d hd
    rcases List.mem_cons.mp hd with rfl | hd2
    · exact hq d (List.mem_cons_self _ _)
    · exact hih r0 (fun e he => hq e (List.mem_cons_of_mem _ he)) hr0 d hd2

theorem splitChar_chars_subset (sep : Char) :
    ∀ (s : Str) (p : Str), p ∈ splitChar sep s → ∀ c ∈ p, c ∈ s := by
  intro s
  induction s with
  | nil =>
    intro p hp c hc
    simp only [splitChar, List.mem_singleton] at hp
    subst hp
    cases hc
  | cons x xs ih =>
    intro p hp c hc
    by_cases hx : x = sep
    · simp only [splitChar, if_pos hx] at hp
      rcases List.mem_cons.mp hp with rfl | hp2
      · cases hc
      · exact List.mem_cons_of_mem _ (ih p hp2 c hc)
    · simp only [splitChar, if_neg hx] at hp
      rcases hs : splitChar sep xs with _ | ⟨q, qs⟩
      · rw [hs] at hp
        simp only [List.mem_singleton] at hp
        subst hp
        simp only [List.mem_singleton] at hc
        subst hc
        exact List.mem_cons_self _ _
      · rw [hs] at hp
        rcases List.mem_cons.mp hp with rfl | hp2
        · rcases List.mem_cons.mp hc with rfl | hc2
          · exact List.mem_cons_self _ _
          · exact List.mem_cons_of_mem _ (ih q (hs ▸ List.mem_cons_self _ _) c hc2)
        · exact List.mem_cons_of_mem _ (ih p (hs ▸ List.mem_cons_of_mem _ hp2) c hc)

theorem parsePair_ascii {piece : Str} {k v : Str}
    (hp : ∀ c ∈ piece, c.toNat < 128) (h : parsePair piece = some (k, v)) :
    (∀ c ∈ k, c.toNat < 128) ∧ ∀ c ∈ v, c.toNat < 128 := by
  simp only [parsePair] at h
  have hsplit := spanNot_append_eq (fun c => decide (c = '=')) piece
  have hfst : ∀ c ∈ (spanNot (fun c => decide (c = '=')) piece).1, c.toNat < 128 := by
    intro c hc
    exact hp c (hsplit ▸ List.mem_append.mpr (Or.inl hc))
  rcases hsnd : (spanNot (fun c => decide (c = '=')) piece).2 with _ | ⟨c0, rest⟩
  · rw [hsnd] at h
    simp only at h
    rcases Option.map_eq_some'.mp h with ⟨k0, hk0, hkv⟩
    injection hkv with hk1 hv1
    refine ⟨?_, ?_⟩
    · intro c hc
      exact percentDecode_ascii _ k0 hfst hk0 c (hk1 ▸ hc)
    · intro c hc
      rw [← hv1] at hc
      cases hc
  · rw [hsnd] at h
    simp only at h
    have hrest : ∀ c ∈ rest, c.toNat < 128 := by
      intro c hc
      refine hp c (hsplit ▸ List.mem_append.mpr (Or.inr ?_))
      rw [hsnd]
      exact List.mem_cons_of_mem _ hc
    rcases hd1 : percentDecode (spanNot (fun c => decide (c = '=')) piece).1 with _ | k0
    · rw [hd1] at h; cases h
    · rcases hd2 : percentDecode rest with _ | v0
      · rw [hd1, hd2] at h; cases h
      · rw [hd1, hd2] at h
        injection h with hkv
        injection hkv with hk1 hv1
        subst hk1
        subst hv1
        exact ⟨percentDecode_ascii _ _ hfst hd1, percentDecode_ascii _ _ hrest hd2⟩

theorem parseQuery_ascii {q : Str} {pairs : List (Str × Str)}
    (hq : ∀ c ∈ q, c.toNat < 128) (h : parseQuery q = some pairs) :
    ∀ p ∈ pairs, (∀ c ∈ p.1, c.toNat < 128) ∧ ∀ c ∈ p.2, c.toNat < 128 := by
  unfold parseQuery at h
  have hpieces : ∀ piece ∈ (splitChar '&' q).filter (fun p => decide (p ≠ [])),
      ∀ c ∈ piece, c.toNat < 128 := by
    intro piece hpiece c hc
    exact hq c (splitChar_chars_subset '&' q piece (List.mem_of_mem_filter hpiece) c hc)
  revert h hpieces
  generalize (splitChar '&' q).filter (fun p => decide (p ≠ [])) = pieces
  intro h hpieces
  induction pieces generalizing pairs with
  | nil =>
    simp only [parsePairs] at h
    injection h with h2
    subst h2
    intro p hp
    cases hp
  | cons piece rest ih =>
    rw [parsePairs.eq_def] at h
    dsimp only at h
    rcases hpp : parsePair piece with _ | pr
    · rw [hpp] at h; cases h
    · rcases hps : parsePairs rest with _ | prs
      · rw [hpp, hps] at h; cases h
      · rw [hpp, hps] at h
        injection h with h2
        subst h2
        intro p hp
        rcases List.mem_cons.mp hp with rfl | hp2
        · obtain ⟨k, v⟩ := p
          exact parsePair_ascii (hpieces piece (List.mem_cons_self _ _)) hpp
        · exact ih hps (fun pc hpc => hpieces pc (List.mem_cons_of_mem _ hpc)) p hp2

theorem spanNot_fst_all (stop : Char → Bool) (s : Str) :
    ∀ c ∈ (spanNot stop s).1, stop c = false := by
  induction s with
  | nil => intro c hc; cases hc
  | cons x xs ih =>
    by_cases hx : stop x = true
    · simp [spanNot, hx]
    · intro c hc
      simp only [spanNot, hx, if_neg] at hc
      simp only [Bool.false_eq_true, if_false] at hc
      rcases List.mem_cons.mp hc with rfl | hc2
      · simpa using hx
      · exact ih c hc2

theorem spanNot_snd_cases (stop : Char → Bool) (s : Str) :
    (spanNot stop s).2 = [] ∨
      ∃ c cs, (spanNot stop s).2 = c :: cs ∧ stop c = true := by
  induction s with
  | nil => exact Or.inl rfl
  | cons x xs ih =>
    by_cases hx : stop x = true
    · exact Or.inr ⟨x, xs, by simp [spanNot, hx], hx⟩
    · simpa [spanNot, hx] using ih

theorem splitHostPort_some {auth h0 : Str} {po : Option Nat}
    (h : splitHostPort auth = some (h0, po)) :
    ∀ n, po = some n → n ≤ 65535 := by
  unfold splitHostPort at h
  dsimp only at h
  rcases hs : (spanNot (fun c => decide (c = ':')) auth).2 with _ | ⟨c0, portRaw⟩
  · rw [hs] at h
    simp only at h
    injection h with h2
    injection h2 with hh hp
    subst hp
    intro n hn
    cases hn
  · rw [hs] at h
    simp only at h
    split at h
    · next hcond =>
      injection h with h2
      injection h2 with hh hp
      subst hp
      intro n hn
      injection hn with hn2
      subst hn2
      exact hcond.2.2
    · cases h

theorem parseFragPart_valid {r : Str} {f : Option Str}
    (h : parseFragPart r = some f) :
    ∀ fr, f = some fr → fr.all fragCharOk = true := by
  unfold parseFragPart at h
  rcases r with _ | ⟨c, rest⟩
  · injection h with h2
    subst h2
    intro fr hfr
    cases hfr
  · simp only at h
    split at h
    · split at h
      · next hok =>
        injection h with h2
        subst h2
        intro fr hfr
        injection hfr with hfr2
        subst hfr2
        exact hok
      · cases h
    · cases h

theorem parseQueryPart_valid {r : Str} {q : Option (List (Str × Str))} {f : Option Str}
    (h : parseQueryPart r = some (q, f)) :
    (∀ pairs, q = some pairs →
      ∀ p ∈ pairs, (∀ c ∈ p.1, c.toNat < 128) ∧ ∀ c ∈ p.2, c.toNat < 128) ∧
    (∀ fr, f = some fr → fr.all fragCharOk = true) := by
  rw [parseQueryPart.eq_def] at h
  split at h
  · next qf =>
    dsimp only at h
    split at h
    · next hqok =>
      rcases hpq : parseQuery (spanNot (fun c => decide (c = '#')) qf).1 with _ | pairs0
      · rw [hpq] at h; cases h
      · rcases hpf : parseFragPart (spanNot (fun c => decide (c = '#')) qf).2 with _ | f0
        · rw [hpq, hpf] at h; cases h
        · rw [hpq, hpf] at h
          injection h with h2
          injection h2 with hq hf
          subst hq
          subst hf
          constructor
          · intro pairs hp
            injection hp with hp2
            subst hp2
            refine parseQuery_ascii ?_ hpq
            intro d hd
            have := queryCharOk_toNat ((List.all_eq_true.mp hqok) d hd)
            omega
          · exact parseFragPart_valid hpf
    · cases h
  · rcases Option.map_eq_some'.mp h with ⟨f0, hf0, hqf⟩
    injection hqf with hq hf
    subst hq
    subst hf
    exact ⟨(fun pairs hp => by cases hp), parseFragPart_valid hf0⟩

theorem parseUrl_valid {s : Str} {u : Url} (h : parseUrl s = some u) : UrlValid u := by
  unfold parseUrl at h
  split at h
  · cases h
  next hascii =>
    rcases hsch : splitScheme s with _ | ⟨schRaw, rest⟩
    · rw [hsch] at h; cases h
    rw [hsch] at h
    dsimp only at h
    split at h
    · cases h
    next hschemeNN =>
      have hschemeOk : schemeOk schRaw = true := not_not.mp hschemeNN
      split at h
      · cases h
      next hany =>
        rcases hhp : splitHostPort
            (spanNot (fun c => decide (c = '/') || decide (c = '?') || decide (c = '#')) rest).1
          with _ | ⟨hostRaw, portRaw⟩
        · rw [hhp] at h; cases h
        rw [hhp] at h
        dsimp only at h
        split at h
        · cases h
        next hhostNN =>
          have hhost : toLowerStr hostRaw ≠ [] ∧
              (toLowerStr hostRaw).all hostCharOk = true := not_not.mp hhostNN
          set p1 := spanNot
            (fun c => decide (c = '/') || decide (c = '?') || decide (c = '#')) rest
            with hp1def
          set p2 := spanNot (fun c => decide (c = '?') || decide (c = '#')) p1.2
            with hp2def
          set path0 : Str := if p2.1 = [] then ['/'] else p2.1 with hpathdef
          split at h
          · cases h
          next hpathOkNN =>
            split at h
            · cases h
            next hdotNN =>
              rcases hpqp : parseQueryPart p2.2 with _ | ⟨query0, fragment0⟩
              · rw [hpqp] at h; cases h
              rw [hpqp] at h
              dsimp only at h
              injection h with h2
              subst h2
              have hqf := parseQueryPart_valid hpqp
              refine ⟨schemeOk_toLower hschemeOk, toLowerStr_idem schRaw,
                hhost.1, hhost.2, ?_, ?_, ?_, not_not.mp hpathOkNN, not_not.mp hdotNN,
                hqf.1, hqf.2⟩
              · intro n hn
                dsimp only at hn ⊢
                rcases hpr : portRaw with _ | m
                · rw [hpr] at hn; cases hn
                · rw [hpr] at hn
                  dsimp only at hn
                  split at hn
                  · cases hn
                  next hdef =>
                    injection hn with hn2
                    exact ⟨splitHostPort_some (hpr ▸ hhp) n (by rw [hn2]), hn2 ▸ hdef⟩
              · show path0 ≠ []
                rw [hpathdef]
                split
                · simp
                · next hne => exact hne
              · show path0.head? = some '/'
                rw [hpathdef]
                split
                · rfl
                next hne =>
                  rcases hp21 : p2.1 with _ | ⟨c0, t⟩
                  · exact absurd hp21 hne
                  have happ : p2.1 ++ p2.2 = p1.2 := by
                    rw [hp2def]
                    exact spanNot_append_eq _ _
                  have hp12 : p1.2 = c0 :: (t ++ p2.2) := by
                    rw [← happ, hp21]
                    simp
                  have hstop1 := spanNot_snd_cases
                    (fun c => decide (c = '/') || decide (c = '?') || decide (c = '#')) rest
                  rcases hstop1 with h1 | ⟨d, ds, hds, hd⟩
                  · rw [← hp1def] at h1
                    rw [h1] at hp12
                    cases hp12
                  · rw [← hp1def] at hds
                    rw [hds] at hp12
                    injection hp12 with hc0 _
                    have hd0 : (decide (c0 = '/') || decide (c0 = '?') ||
                        decide (c0 = '#')) = true := hc0 ▸ hd
                    have hstop2 := spanNot_fst_all
                      (fun c => decide (c = '?') || decide (c = '#')) p1.2 c0
                      (by rw [← hp2def, hp21]; exact List.mem_cons_self _ _)
                    simp only [Bool.or_eq_true, decide_eq_true_eq] at hd0 hstop2
                    rcases hd0 with (hd1 | hd1) | hd1
                    · rw [hd1]
                      rfl
                    · exact absurd (Or.inl hd1) (by simpa using hstop2)
                    · exact absurd (Or.inr hd1) (by simpa using hstop2)

theorem schemeOk_chars {s : Str} (h : schemeOk s = true) :
    ∀ c ∈ s, c.toNat < 128 := by
  cases s with
  | nil => intro c hc; cases hc
  | cons c0 cs =>
    simp only [schemeOk, Bool.and_eq_true, List.all_eq_true] at h
    intro c hc
    rcases List.mem_cons.mp hc with h1 | h1
    · subst h1
      rcases isAsciiAlpha_toNat h.1 with h2 | h2 <;> omega
    · rcases schemeCharOk_toNat (h.2 c h1) with h2 | h2 | h2 | h2 | h2 | h2 <;> omega

theorem schemeOk_no_colon {s : Str} (h : schemeOk s = true) :
    ∀ c ∈ s, ¬ c = ':' := by
  intro c hc
  rw [char_eq_iff]
  show ¬ c.toNat = (':').toNat
  have h58 : (':').toNat = 58 := rfl
  rw [h58]
  cases s with
  | nil => cases hc
  | cons c0 cs =>
    simp only [schemeOk, Bool.and_eq_true, List.all_eq_true] at h
    rcases List.mem_cons.mp hc with h1 | h1
    · subst h1
      rcases isAsciiAlpha_toNat h.1 with h2 | h2 <;> omega
    · rcases schemeCharOk_toNat (h.2 c h1) with h2 | h2 | h2 | h2 | h2 | h2 <;> omega

theorem joinSep_mem (sep : Char) (l : List Str) (c : Char) (hc : c ∈ joinSep sep l) :
    c = sep ∨ ∃ x ∈ l, c ∈ x := by
  induction l with
  | nil => cases hc
  | cons p ps ih =>
    cases ps with
    | nil =>
      right
      exact ⟨p, List.mem_cons_self _ _, hc⟩
    | cons q qs =>
      rw [show joinSep sep (p :: q :: qs) = p ++ sep :: joinSep sep (q :: qs) from rfl] at hc
      rcases List.mem_append.mp hc with h1 | h1
      · right
        exact ⟨p, List.mem_cons_self _ _, h1⟩
      · rcases List.mem_cons.mp h1 with h2 | h2
        · exact Or.inl h2
        · rcases ih h2 with h3 | ⟨x, hx, hcx⟩
          · exact Or.inl h3
          · right
            exact ⟨x, List.mem_cons_of_mem _ hx, hcx⟩

theorem encodeQuery_mem {pairs : List (Str × Str)}
    (hp : ∀ p ∈ pairs, (∀ c ∈ p.1, c.toNat < 128) ∧ ∀ c ∈ p.2, c.toNat < 128)
    {c : Char} (hc : c ∈ encodeQuery pairs) :
    (48 ≤ c.toNat ∧ c.toNat ≤ 57) ∨ (65 ≤ c.toNat ∧ c.toNat ≤ 90) ∨
      (97 ≤ c.toNat ∧ c.toNat ≤ 122) ∨ c.toNat = 42 ∨ c.toNat = 45 ∨
      c.toNat = 46 ∨ c.toNat = 95 ∨ c.toNat = 43 ∨ c.toNat = 37 ∨
      c.toNat = 61 ∨ c.toNat = 38 := by
  unfold encodeQuery at hc
  rcases joinSep_mem '&' _ c hc with h1 | ⟨x, hx, hcx⟩
  · subst h1
    decide
  · rcases List.mem_map.mp hx with ⟨p, hpmem, hpx⟩
    subst hpx
    rcases List.mem_append.mp hcx with h2 | h2
    · have h9 := formEncodeStr_chars h2 (hp p hpmem).1
      omega
    · rcases List.mem_cons.mp h2 with h3 | h3
      · subst h3
        decide
      · have h9 := formEncodeStr_chars h3 (hp p hpmem).2
        omega

theorem queryCharOk_of_toNat {c : Char}
    (h : 33 ≤ c.toNat ∧ c.toNat ≤ 126 ∧ c.toNat ≠ 34 ∧ c.toNat ≠ 60 ∧
      c.toNat ≠ 62 ∧ c.toNat ≠ 39) : queryCharOk c = true := by
  simp only [queryCharOk, Bool.and_eq_true, decide_eq_true_eq, Bool.not_eq_true',
    Bool.or_eq_false_iff, decide_eq_false_iff_not, char_eq_iff,
    show ('"').toNat = 34 from rfl, show ('<').toNat = 60 from rfl,
    show ('>').toNat = 62 from rfl, show (Char.ofNat 39).toNat = 39 from rfl]
  omega

theorem host_no_colon {host : Str} (h4 : host.all hostCharOk = true) :
    ∀ c ∈ host, (decide (c = ':')) = false := by
  intro c hc
  simp only [decide_eq_false_iff_not, char_eq_iff, show (':').toNat = 58 from rfl]
  have h9d := hostCharOk_toNat ((List.all_eq_true.mp h4) c hc)
  omega

theorem splitHostPort_append_none {host : Str} (h4 : host.all hostCharOk = true) :
    splitHostPort (host ++ []) = some (host, none) := by
  unfold splitHostPort
  dsimp only
  rw [spanNot_eq_of_all _ host [] (host_no_colon h4) (Or.inl rfl)]

theorem splitHostPort_append_port {host : Str} (h4 : host.all hostCharOk = true)
    {n : Nat} (hn : n ≤ 65535) :
    splitHostPort (host ++ ':' :: natDigits n) = some (host, some n) := by
  unfold splitHostPort
  dsimp only
  rw [spanNot_eq_of_all _ host (':' :: natDigits n) (host_no_colon h4)
    (Or.inr ⟨':', natDigits n, rfl, by decide⟩)]
  dsimp only
  rw [if_pos ⟨natDigits_ne_nil n, List.all_eq_true.mpr (natDigits_digits n),
    by rw [digitsToNat_natDigits]; exact hn⟩]
  rw [digitsToNat_natDigits]

theorem parseFragPart_hash {f : Str} (hf : f.all fragCharOk = true) :
    parseFragPart ('#' :: f) = some (some f) := by
  unfold parseFragPart
  dsimp only
  rw [if_pos rfl, if_pos hf]

theorem parseQueryPart_hash {f : Str} (hf : f.all fragCharOk = true) :
    parseQueryPart ([] ++ '#' :: f) = some (none, some f) := by
  have h0 : (([] : Str) ++ '#' :: f) = '#' :: f := rfl
  rw [h0]
  have h1 : parseQueryPart ('#' :: f) =
      (parseFragPart ('#' :: f)).map
        (fun frag => ((none : Option (List (Str × Str))), frag)) := rfl
  rw [h1, parseFragPart_hash hf]
  rfl

theorem parseQueryPart_query {pairs : List (Str × Str)} {fp : Str}
    {frag : Option Str}
    (hp : ∀ p ∈ pairs, (∀ c ∈ p.1, c.toNat < 128) ∧ ∀ c ∈ p.2, c.toNat < 128)
    (hfpShape : fp = [] ∨ ∃ t, fp = '#' :: t)
    (hfpParse : parseFragPart fp = some frag) :
    parseQueryPart (('?' :: encodeQuery pairs) ++ fp) = some (some pairs, frag) := by
  have hspan : spanNot (fun c => decide (c = '#')) (encodeQuery pairs ++ fp) =
      (encodeQuery pairs, fp) := by
    apply spanNot_eq_of_all
    · intro c hc
      simp only [decide_eq_false_iff_not, char_eq_iff, show ('#').toNat = 35 from rfl]
      have h9d := encodeQuery_mem hp hc
      omega
    · rcases hfpShape with hsh | ⟨t, hsh⟩
      · exact Or.inl hsh
      · exact Or.inr ⟨'#', t, hsh, by decide⟩
  have hqok : (encodeQuery pairs).all queryCharOk = true := by
    rw [List.all_eq_true]
    intro c hc
    apply queryCharOk_of_toNat
    have h9d := encodeQuery_mem hp hc
    omega
  have h0 : ('?' :: encodeQuery pairs) ++ fp = '?' :: (encodeQuery pairs ++ fp) := rfl
  rw [h0, parseQueryPart.eq_def]
  split
  next qf heq =>
    injection heq with h1 h2
    subst h2
    dsimp only
    rw [hspan]
    dsimp only
    rw [if_pos hqok, parseQuery_encodeQuery pairs hp, hfpParse]
  next hno =>
    exact (hno _ rfl).elim

theorem parseUrl_build (sch host portPart path queryPart fragPart : Str)
    (port : Option Nat) (query : Option (List (Str × Str))) (frag : Option Str)
    (h1 : schemeOk sch = true) (h2 : toLowerStr sch = sch)
    (h3 : host ≠ []) (h4 : host.all hostCharOk = true)
    (h5 : ∀ n, port = some n → ¬ defaultPort sch = some n)
    (h6 : path ≠ []) (h7 : path.head? = some '/')
    (h8 : path.all pathCharOk = true)
    (h9 : (splitChar '/' path).all (fun seg => decide (seg ≠ ['.'] ∧ seg ≠ ['.', '.'])) = true)
    (hppChars : ∀ c ∈ portPart, c.toNat = 58 ∨ (48 ≤ c.toNat ∧ c.toNat ≤ 57))
    (hppSplit : splitHostPort (host ++ portPart) = some (host, port))
    (hqpShape : queryPart = [] ∨ ∃ t, queryPart = '?' :: t)
    (hqpChars : ∀ c ∈ queryPart, c.toNat < 128)
    (hfpShape : fragPart = [] ∨ ∃ t, fragPart = '#' :: t)
    (hfpChars : ∀ c ∈ fragPart, c.toNat < 128)
    (hqpParse : parseQueryPart (queryPart ++ fragPart) = some (query, frag)) :
    parseUrl (sch ++ ':' :: '/' :: '/' ::
        (host ++ (portPart ++ (path ++ (queryPart ++ fragPart))))) =
      some ⟨sch, host, port, path, query, frag⟩ := by
  obtain ⟨pathTail, hpt⟩ : ∃ t, path = '/' :: t := by
    cases hp : path with
    | nil => exact absurd hp h6
    | cons c t =>
      rw [hp] at h7
      injection h7 with h7c
      exact ⟨t, by rw [h7c]⟩
  have hAscii : ((sch ++ ':' :: '/' :: '/' ::
      (host ++ (portPart ++ (path ++ (queryPart ++ fragPart))))).all
      (fun c => decide (c.toNat < 128))) = true := by
    rw [List.all_eq_true]
    intro c hc
    simp only [List.mem_append, List.mem_cons] at hc
    simp only [decide_eq_true_eq]
    rcases hc with hc | hc | hc | hc | hc | hc | hc | hc | hc
    · exact schemeOk_chars h1 c hc
    · subst hc; decide
    · subst hc; decide
    · subst hc; decide
    · have h9d := hostCharOk_toNat ((List.all_eq_true.mp h4) c hc); omega
    · have h9d := hppChars c hc; omega
    · have h9d := pathCharOk_toNat ((List.all_eq_true.mp h8) c hc); omega
    · exact hqpChars c hc
    · exact hfpChars c hc
  have hstop1 : ∀ c ∈ host ++ portPart,
      (decide (c = '/') || decide (c = '?') || decide (c = '#')) = false := by
    intro c hc
    simp only [Bool.or_eq_false_iff, decide_eq_false_iff_not, char_eq_iff,
      show ('/').toNat = 47 from rfl, show ('?').toNat = 63 from rfl,
      show ('#').toNat = 35 from rfl]
    rcases List.mem_append.mp hc with h' | h'
    · have h9d := hostCharOk_toNat ((List.all_eq_true.mp h4) c h'); omega
    · have h9d := hppChars c h'; omega
  have hp1 : spanNot (fun c => decide (c = '/') || decide (c = '?') || decide (c = '#'))
      (host ++ (portPart ++ (path ++ (queryPart ++ fragPart)))) =
      (host ++ portPart, path ++ (queryPart ++ fragPart)) := by
    rw [show host ++ (portPart ++ (path ++ (queryPart ++ fragPart))) =
        (host ++ portPart) ++ (path ++ (queryPart ++ fragPart)) by
      rw [List.append_assoc]]
    apply spanNot_eq_of_all _ _ _ hstop1
    right
    exact ⟨'/', pathTail ++ (queryPart ++ fragPart), by rw [hpt]; rfl, by decide⟩
  have hany1 : ((host ++ portPart).any
      (fun c => decide (c = '@') || decide (c = '[') || decide (c = ']'))) = false := by
    rw [List.any_eq_false]
    intro c hc
    simp only [Bool.or_eq_true, Bool.or_eq_false_iff, decide_eq_true_eq,
      decide_eq_false_iff_not, char_eq_iff,
      show ('@').toNat = 64 from rfl, show ('[').toNat = 91 from rfl,
      show (']').toNat = 93 from rfl]
    rcases List.mem_append.mp hc with h' | h'
    · have h9d := hostCharOk_toNat ((List.all_eq_true.mp h4) c h'); omega
    · have h9d := hppChars c h'; omega
  have hhostLower : toLowerStr host = host :=
    toLowerStr_eq_self (by
      intro c hc
      have h9d := hostCharOk_toNat ((List.all_eq_true.mp h4) c hc)
      omega)
  have hstop2 : ∀ c ∈ path, (decide (c = '?') || decide (c = '#')) = false := by
    intro c hc
    simp only [Bool.or_eq_false_iff, decide_eq_false_iff_not, char_eq_iff,
      show ('?').toNat = 63 from rfl, show ('#').toNat = 35 from rfl]
    have h9d := pathCharOk_toNat ((List.all_eq_true.mp h8) c hc)
    omega
  have hp2 : spanNot (fun c => decide (c = '?') || decide (c = '#'))
      (path ++ (queryPart ++ fragPart)) = (path, queryPart ++ fragPart) := by
    apply spanNot_eq_of_all _ _ _ hstop2
    rcases hqpShape with hsh | ⟨t, hsh⟩
    · rw [hsh, List.nil_append]
      rcases hfpShape with hsh2 | ⟨t2, hsh2⟩
      · exact Or.inl hsh2
      · exact Or.inr ⟨'#', t2, hsh2, by decide⟩
    · exact Or.inr ⟨'?', t ++ fragPart, by rw [hsh]; rfl, by decide⟩
  unfold parseUrl
  split
  next hcond => exact absurd hAscii hcond
  next hcond =>
    split
    next heq =>
      rw [splitScheme_append _ _ (schemeOk_no_colon h1)] at heq
      cases heq
    next schRaw rest heq =>
      rw [splitScheme_append _ _ (schemeOk_no_colon h1)] at heq
      injection heq with hpr
      injection hpr with hA hB
      subst hA
      subst hB
      split
      next hcond2 => exact absurd h1 hcond2
      next hcond2 =>
        rw [h2, hp1]
        dsimp only
        split
        next hcond3 =>
          rw [hany1] at hcond3
          exact absurd hcond3 (by decide)
        next hcond3 =>
          split
          next heq2 =>
            rw [hppSplit] at heq2
            cases heq2
          next hostRaw portRaw heq2 =>
            rw [hppSplit] at heq2
            injection heq2 with hpr2
            injection hpr2 with hA2 hB2
            subst hA2
            subst hB2
            split
            next hcond4 =>
              refine absurd ?_ hcond4
              rw [hhostLower]
              exact ⟨h3, h4⟩
            next hcond4 =>
              rw [hp2]
              dsimp only
              rw [if_neg h6, hhostLower]
              split
              next hcond5 => exact absurd h8 hcond5
              next hcond5 =>
                split
                next heq3 =>
                  rw [hqpParse] at heq3
                  cases heq3
                next query1 frag1 heq3 =>
                  rw [hqpParse] at heq3
                  injection heq3 with hpr3
                  injection hpr3 with hA3 hB3
                  subst hA3
                  subst hB3
                  rcases port with _ | n
                  · rfl
                  · dsimp only
                    rw [if_neg (h5 n rfl)]

theorem parseUrl_serializeUrl {u : Url} (h : UrlValid u) :
    parseUrl (serializeUrl u) = some u := by
  obtain ⟨sch, host, port, path, query, frag⟩ := u
  obtain ⟨h1, h2, h3, h4, h5, h6, h7, h8, h9, h10, h11⟩ := h
  rcases port with _ | n <;> rcases query with _ | pairs <;> rcases frag with _ | f
  · have hser : serializeUrl ⟨sch, host, none, path, none, none⟩ =
        sch ++ ':' :: '/' :: '/' :: (host ++ ([] ++ (path ++ ([] ++ [])))) := by
      simp [serializeUrl, List.append_assoc]
    rw [hser]
    exact parseUrl_build sch host [] path [] [] none none none h1 h2 h3 h4
      (fun m hm => Option.noConfusion hm) h6 h7 h8 h9
      (fun c hc => absurd hc (List.not_mem_nil c))
      (splitHostPort_append_none h4) (Or.inl rfl)
      (fun c hc => absurd hc (List.not_mem_nil c)) (Or.inl rfl)
      (fun c hc => absurd hc (List.not_mem_nil c)) rfl
  · have hser : serializeUrl ⟨sch, host, none, path, none, some f⟩ =
        sch ++ ':' :: '/' :: '/' :: (host ++ ([] ++ (path ++ ([] ++ '#' :: f)))) := by
      simp [serializeUrl, List.append_assoc]
    rw [hser]
    exact parseUrl_build sch host [] path [] ('#' :: f) none none (some f) h1 h2 h3 h4
      (fun m hm => Option.noConfusion hm) h6 h7 h8 h9
      (fun c hc => absurd hc (List.not_mem_nil c))
      (splitHostPort_append_none h4) (Or.inl rfl)
      (fun c hc => absurd hc (List.not_mem_nil c)) (Or.inr ⟨f, rfl⟩)
      (fun c hc => by
        rcases List.mem_cons.mp hc with h' | h'
        · subst h'; decide
        · have h9d := fragCharOk_toNat ((List.all_eq_true.mp (h11 f rfl)) c h'); omega)
      (parseQueryPart_hash (h11 f rfl))
  · have hser : serializeUrl ⟨sch, host, none, path, some pairs, none⟩ =
        sch ++ ':' :: '/' :: '/' ::
          (host ++ ([] ++ (path ++ (('?' :: encodeQuery pairs) ++ [])))) := by
      simp [serializeUrl, List.append_assoc]
    rw [hser]
    exact parseUrl_build sch host [] path ('?' :: encodeQuery pairs) [] none
      (some pairs) none h1 h2 h3 h4
      (fun m hm => Option.noConfusion hm) h6 h7 h8 h9
      (fun c hc => absurd hc (List.not_mem_nil c))
      (splitHostPort_append_none h4) (Or.inr ⟨encodeQuery pairs, rfl⟩)
      (fun c hc => by
        rcases List.mem_cons.mp hc with h' | h'
        · subst h'; decide
        · have h9d := encodeQuery_mem (h10 pairs rfl) h'; omega)
      (Or.inl rfl)
      (fun c hc => absurd hc (List.not_mem_nil c))
      (parseQueryPart_query (h10 pairs rfl) (Or.inl rfl) rfl)
  · have hser : serializeUrl ⟨sch, host, none, path, some pairs, some f⟩ =
        sch ++ ':' :: '/' :: '/' ::
          (host ++ ([] ++ (path ++ (('?' :: encodeQuery pairs) ++ '#' :: f)))) := by
      simp [serializeUrl, List.append_assoc]
    rw [hser]
    exact parseUrl_build sch host [] path ('?' :: encodeQuery pairs) ('#' :: f) none
      (some pairs) (some f) h1 h2 h3 h4
      (fun m hm => Option.noConfusion hm) h6 h7 h8 h9
      (fun c hc => absurd hc (List.not_mem_nil c))
      (splitHostPort_append_none h4) (Or.inr ⟨encodeQuery pairs, rfl⟩)
      (fun c hc => by
        rcases List.mem_cons.mp hc with h' | h'
        · subst h'; decide
        · have h9d := encodeQuery_mem (h10 pairs rfl) h'; omega)
      (Or.inr ⟨f, rfl⟩)
      (fun c hc => by
        rcases List.mem_cons.mp hc with h' | h'
        · subst h'; decide
        · have h9d := fragCharOk_toNat ((List.all_eq_true.mp (h11 f rfl)) c h'); omega)
      (parseQueryPart_query (h10 pairs rfl) (Or.inr ⟨f, rfl⟩)
        (parseFragPart_hash (h11 f rfl)))
  · have hser : serializeUrl ⟨sch, host, some n, path, none, none⟩ =
        sch ++ ':' :: '/' :: '/' ::
          (host ++ ((':' :: natDigits n) ++ (path ++ ([] ++ [])))) := by
      simp [serializeUrl, List.append_assoc]
    rw [hser]
    exact parseUrl_build sch host (':' :: natDigits n) path [] [] (some n) none none
      h1 h2 h3 h4
      (fun m hm => by injection hm with hnm; exact hnm ▸ (h5 n rfl).2) h6 h7 h8 h9
      (fun c hc => by
        rcases List.mem_cons.mp hc with h' | h'
        · subst h'; left; rfl
        · right; exact isAsciiDigit_toNat (natDigits_digits n c h'))
      (splitHostPort_append_port h4 (h5 n rfl).1) (Or.inl rfl)
      (fun c hc => absurd hc (List.not_mem_nil c)) (Or.inl rfl)
      (fun c hc => absurd hc (List.not_mem_nil c)) rfl
  · have hser : serializeUrl ⟨sch, host, some n, path, none, some f⟩ =
        sch ++ ':' :: '/' :: '/' ::
          (host ++ ((':' :: natDigits n) ++ (path ++ ([] ++ '#' :: f)))) := by
      simp [serializeUrl, List.append_assoc]
    rw [hser]
    exact parseUrl_build sch host (':' :: natDigits n) path [] ('#' :: f) (some n)
      none (some f) h1 h2 h3 h4
      (fun m hm => by injection hm with hnm; exact hnm ▸ (h5 n rfl).2) h6 h7 h8 h9
      (fun c hc => by
        rcases List.mem_cons.mp hc with h' | h'
        · subst h'; left; rfl
        · right; exact isAsciiDigit_toNat (natDigits_digits n c h'))
      (splitHostPort_append_port h4 (h5 n rfl).1) (Or.inl rfl)
      (fun c hc => absurd hc (List.not_mem_nil c)) (Or.inr ⟨f, rfl⟩)
      (fun c hc => by
        rcases List.mem_cons.mp hc with h' | h'
        · subst h'; decide
        · have h9d := fragCharOk_toNat ((List.all_eq_true.mp (h11 f rfl)) c h'); omega)
      (parseQueryPart_hash (h11 f rfl))
  · have hser : serializeUrl ⟨sch, host, some n, path, some pairs, none⟩ =
        sch ++ ':' :: '/' :: '/' ::
          (host ++ ((':' :: natDigits n) ++
            (path ++ (('?' :: encodeQuery pairs) ++ [])))) := by
      simp [serializeUrl, List.append_assoc]
    rw [hser]
    exact parseUrl_build sch host (':' :: natDigits n) path ('?' :: encodeQuery pairs)
      [] (some n) (some pairs) none h1 h2 h3 h4
      (fun m hm => by injection hm with hnm; exact hnm ▸ (h5 n rfl).2) h6 h7 h8 h9
      (fun c hc => by
        rcases List.mem_cons.mp hc with h' | h'
        · subst h'; left; rfl
        · right; exact isAsciiDigit_toNat (natDigits_digits n c h'))
      (splitHostPort_append_port h4 (h5 n rfl).1) (Or.inr ⟨encodeQuery pairs, rfl⟩)
      (fun c hc => by
        rcases List.mem_cons.mp hc with h' | h'
        · subst h'; decide
        · have h9d := encodeQuery_mem (h10 pairs rfl) h'; omega)
      (Or.inl rfl)
      (fun c hc => absurd hc (List.not_mem_nil c))
      (parseQueryPart_query (h10 pairs rfl) (Or.inl rfl) rfl)
  · have hser : serializeUrl ⟨sch, host, some n, path, some pairs, some f⟩ =
        sch ++ ':' :: '/' :: '/' ::
          (host ++ ((':' :: natDigits n) ++
            (path ++ (('?' :: encodeQuery pairs) ++ '#' :: f)))) := by
      simp [serializeUrl, List.append_assoc]
    rw [hser]
    exact parseUrl_build sch host (':' :: natDigits n) path ('?' :: encodeQuery pairs)
      ('#' :: f) (some n) (some pairs) (some f) h1 h2 h3 h4
      (fun m hm => by injection hm with hnm; exact hnm ▸ (h5 n rfl).2) h6 h7 h8 h9
      (fun c hc => by
        rcases List.mem_cons.mp hc with h' | h'
        · subst h'; left; rfl
        · right; exact isAsciiDigit_toNat (natDigits_digits n c h'))
      (splitHostPort_append_port h4 (h5 n rfl).1) (Or.inr ⟨encodeQuery pairs, rfl⟩)
      (fun c hc => by
        rcases List.mem_cons.mp hc with h' | h'
        · subst h'; decide
        · have h9d := encodeQuery_mem (h10 pairs rfl) h'; omega)
      (Or.inr ⟨f, rfl⟩)
      (fun c hc => by
        rcases List.mem_cons.mp hc with h' | h'
        · subst h'; decide
        · have h9d := fragCharOk_toNat ((List.all_eq_true.mp (h11 f rfl)) c h'); omega)
      (parseQueryPart_query (h10 pairs rfl) (Or.inr ⟨f, rfl⟩)
        (parseFragPart_hash (h11 f rfl)))

theorem splitChar_ne_nil (sep : Char) : ∀ s : Str, splitChar sep s ≠ [] := by
  intro s
  induction s with
  | nil => simp [splitChar]
  | cons c cs ih =>
    by_cases hc : c = sep
    · simp [splitChar, hc]
    · cases hsc : splitChar sep cs with
      | nil => exact absurd hsc ih
      | cons p ps => simp [splitChar, hc, hsc]

theorem splitChar_append_sep_nil (sep : Char) (xs : Str) :
    splitChar sep (xs ++ [sep]) = splitChar sep xs ++ [[]] := by
  induction xs with
  | nil => simp [splitChar]
  | cons c cs ih =>
    by_cases hc : c = sep
    · simp [splitChar, hc, ih]
    · cases hsc : splitChar sep cs with
      | nil => exact absurd hsc (splitChar_ne_nil sep cs)
      | cons p ps => simp [splitChar, hc, ih, hsc]

theorem normalizeUrl_some {s : Str} {u : Url} (h : parseUrl s = some u) :
    CrawlManager.normalizeUrl s = some (CrawlManager.normForm u) := by
  unfold CrawlManager.normalizeUrl CrawlManager.normForm CrawlManager.normReplaced
    CrawlManager.sortedQuery
  rw [h]
  dsimp only
  split <;> split <;> rfl

theorem normalizeUrl_none_iff (s : Str) :
    CrawlManager.normalizeUrl s = none ↔ parseUrl s = none := by
  cases h : parseUrl s with
  | none =>
    unfold CrawlManager.normalizeUrl
    rw [h]
    simp
  | some u =>
    rw [normalizeUrl_some h]
    simp

theorem sortedQuery_valid {u : Url} (hv : UrlValid u) :
    ∀ p ∈ CrawlManager.sortedQuery u,
      (∀ c ∈ p.1, c.toNat < 128) ∧ (∀ c ∈ p.2, c.toNat < 128) := by
  intro p hp
  have hperm := List.perm_insertionSort entryLe (u.query.getD [])
  have hp2 : p ∈ u.query.getD [] := hperm.mem_iff.mp hp
  cases hqu : u.query with
  | none => rw [hqu] at hp2; cases hp2
  | some qs =>
    rw [hqu] at hp2
    obtain ⟨-, -, -, -, -, -, -, -, -, h10, -⟩ := hv
    exact h10 qs hqu p hp2

theorem normReplaced_valid {u : Url} (hv : UrlValid u) :
    UrlValid (CrawlManager.normReplaced u) := by
  have hsq := sortedQuery_valid hv
  obtain ⟨h1, h2, h3, h4, h5, h6, h7, h8, h9, h10, h11⟩ := hv
  refine ⟨h1, h2, h3, h4, h5, h6, h7, h8, h9, ?_, ?_⟩
  · intro q hq p hp
    have hq2 : (if CrawlManager.sortedQuery u = [] then none
        else some (CrawlManager.sortedQuery u)) = some q := hq
    split at hq2
    · cases hq2
    · injection hq2 with hq3
      subst hq3
      exact hsq p hp
  · intro f hf
    cases hf

theorem serializeUrl_getLast_qnone {u : Url} (hq : u.query = none)
    (hf : u.fragment = none) (hp : u.path ≠ []) :
    (serializeUrl u).getLast? = u.path.getLast? := by
  unfold serializeUrl
  rw [hq, hf]
  dsimp only
  simp only [List.append_nil]
  exact List.getLast?_append_of_ne_nil _ hp

theorem serializeUrl_getLast_qsome {u : Url} {sp : List (Str × Str)}
    (hq : u.query = some sp)
    (hsp : ∀ p ∈ sp, (∀ c ∈ p.1, c.toNat < 128) ∧ (∀ c ∈ p.2, c.toNat < 128))
    (hf : u.fragment = none) :
    ¬ (serializeUrl u).getLast? = some '/' := by
  unfold serializeUrl
  rw [hq, hf]
  dsimp only
  simp only [List.append_nil]
  rw [List.getLast?_append_of_ne_nil _ (by simp : ('?' :: encodeQuery sp) ≠ [])]
  rcases List.eq_nil_or_concat (encodeQuery sp) with he | ⟨ys, a, he⟩
  · rw [he]
    decide
  · rw [he, List.concat_eq_append, show ('?' :: (ys ++ [a])) = ('?' :: ys) ++ [a] by simp,
      List.getLast?_concat]
    intro hcontra
    injection hcontra with ha
    subst ha
    have hmem : '/' ∈ encodeQuery sp := by
      rw [he, List.concat_eq_append]
      exact List.mem_append.mpr (Or.inr (List.mem_singleton.mpr rfl))
    have h9d := encodeQuery_mem hsp hmem
    exact absurd h9d (by decide)

theorem serializeUrl_dropLast_qnone {u : Url} (hq : u.query = none)
    (hf : u.fragment = none) (hp : u.path ≠ []) :
    (serializeUrl u).dropLast = serializeUrl { u with path := u.path.dropLast } := by
  unfold serializeUrl
  rw [hq, hf]
  dsimp only
  simp only [List.append_nil]
  exact List.dropLast_append_of_ne_nil _ hp

theorem normReplaced_qnil {u : Url} (h : CrawlManager.sortedQuery u = []) :
    CrawlManager.normReplaced u = { u with fragment := none, query := none } := by
  unfold CrawlManager.normReplaced
  rw [if_pos h]

theorem normReplaced_qcons {u : Url} (h : ¬ CrawlManager.sortedQuery u = []) :
    CrawlManager.normReplaced u =
      { u with fragment := none, query := some (CrawlManager.sortedQuery u) } := by
  unfold CrawlManager.normReplaced
  rw [if_neg h]

theorem sortedQuery_update_some (u : Url) (sp : List (Str × Str))
    (hs : List.Sorted entryLe sp) :
    CrawlManager.sortedQuery { u with fragment := none, query := some sp } = sp := by
  unfold CrawlManager.sortedQuery
  dsimp only
  exact List.Sorted.insertionSort_eq hs

theorem normReplaced_idem (u : Url) :
    CrawlManager.normReplaced (CrawlManager.normReplaced u) =
      CrawlManager.normReplaced u := by
  by_cases h : CrawlManager.sortedQuery u = []
  · have h2n : CrawlManager.sortedQuery { u with fragment := none, query := none } = [] :=
      rfl
    rw [normReplaced_qnil h, normReplaced_qnil h2n]
  · have hs : List.Sorted entryLe (CrawlManager.sortedQuery u) :=
      List.sorted_insertionSort entryLe (u.query.getD [])
    rw [normReplaced_qcons h]
    have h2 : CrawlManager.sortedQuery
        { u with fragment := none, query := some (CrawlManager.sortedQuery u) } =
        CrawlManager.sortedQuery u := sortedQuery_update_some u _ hs
    rw [normReplaced_qcons (by rw [h2]; exact h), h2]

theorem normForm_fixpoint {u : Url} (hv : UrlValid u)
    (hns : ¬ ['/', '/'] <:+ u.path) :
    CrawlManager.normalizeUrl (CrawlManager.normForm u) =
      some (CrawlManager.normForm u) := by
  have hv' := normReplaced_valid hv
  have hsq := sortedQuery_valid hv
  obtain ⟨h1, h2, h3, h4, h5, h6, h7, h8, h9, h10, h11⟩ := hv
  by_cases hcond : (serializeUrl (CrawlManager.normReplaced u)).getLast? = some '/' ∧
      u.path ≠ ['/']
  · obtain ⟨hlast, hpne⟩ := hcond
    have hqnil : CrawlManager.sortedQuery u = [] := by
      by_contra hqc
      have hqs : (CrawlManager.normReplaced u).query =
          some (CrawlManager.sortedQuery u) := by
        rw [normReplaced_qcons hqc]
      exact serializeUrl_getLast_qsome hqs hsq rfl hlast
    have hqn : CrawlManager.normReplaced u = { u with fragment := none, query := none } :=
      normReplaced_qnil hqnil
    have hlast2 : u.path.getLast? = some '/' := by
      have hlastc := hlast
      rw [hqn,
        @serializeUrl_getLast_qnone { u with fragment := none, query := none } rfl rfl h6]
        at hlastc
      exact hlastc
    have hsplit : u.path.dropLast ++ ['/'] = u.path :=
      List.dropLast_append_getLast? '/' hlast2
    have hptne : u.path.dropLast ≠ [] := by
      intro h0
      rw [h0] at hsplit
      exact hpne hsplit.symm
    have hptlast : ¬ u.path.dropLast.getLast? = some '/' := by
      intro h0
      have h1' := List.dropLast_append_getLast? '/' h0
      apply hns
      refine ⟨u.path.dropLast.dropLast, ?_⟩
      rw [← hsplit, ← h1']
      simp
    have hform : CrawlManager.normForm u =
        serializeUrl
          { u with fragment := none, query := none, path := u.path.dropLast } := by
      unfold CrawlManager.normForm
      rw [if_pos ⟨hlast, hpne⟩, hqn,
        @serializeUrl_dropLast_qnone { u with fragment := none, query := none } rfl rfl h6]
    have hv2 : UrlValid
        { u with fragment := none, query := none, path := u.path.dropLast } := by
      refine ⟨h1, h2, h3, h4, h5, hptne, ?_, ?_, ?_, ?_, ?_⟩
      · rcases hp0 : u.path.dropLast with _ | ⟨c0, t0⟩
        · exact absurd hp0 hptne
        · rw [← hsplit, hp0] at h7
          injection h7 with hc0
          show (c0 :: t0).head? = some '/'
          rw [hc0]
          rfl
      · have h8' := h8
        rw [← hsplit, List.all_append, Bool.and_eq_true] at h8'
        exact h8'.1
      · have h9' := h9
        rw [← hsplit, splitChar_append_sep_nil, List.all_append, Bool.and_eq_true] at h9'
        exact h9'.1
      · intro q hq
        cases hq
      · intro f hf
        cases hf
    rw [hform, normalizeUrl_some (parseUrl_serializeUrl hv2)]
    congr 1
    unfold CrawlManager.normForm
    have hrr2 : CrawlManager.normReplaced
        { u with fragment := none, query := none, path := u.path.dropLast } =
        { u with fragment := none, query := none, path := u.path.dropLast } := by
      rw [@normReplaced_qnil
        { u with fragment := none, query := none, path := u.path.dropLast } rfl]
    rw [hrr2]
    split
    next hc2 =>
      exfalso
      refine hptlast (Eq.trans ?_ hc2.1)
      exact (@serializeUrl_getLast_qnone
        { u with fragment := none, query := none, path := u.path.dropLast }
        rfl rfl hptne).symm
    next => rfl
  · have hform : CrawlManager.normForm u = serializeUrl (CrawlManager.normReplaced u) := by
      unfold CrawlManager.normForm
      rw [if_neg hcond]
    rw [hform, normalizeUrl_some (parseUrl_serializeUrl hv')]
    congr 1
    unfold CrawlManager.normForm
    rw [normReplaced_idem]
    split
    next hc2 => exact absurd ⟨hc2.1, hc2.2⟩ hcond
    next => rfl

theorem robotsLib_empty (url userAgent : Str) :
    (RobotsLib.isAllowed [] url userAgent).getD true = true := by
  unfold RobotsLib.isAllowed
  cases hp : parseUrl url with
  | none => rfl
  | some parsed => rfl

/-- C10: `isSeoRelevantUrl` is total over arbitrary strings: every input the
URL parser rejects (the empty string and protocol-relative strings included)
yields `{ isRelevant := false, reason := "Invalid URL" }` rather than an
exception. -/
theorem claim_C10 (url : Str) (h : parseUrl url = none) :
    SeoUrlFilter.isSeoRelevantUrl url =
      { isRelevant := false, reason := some "Invalid URL" } := by
  unfold SeoUrlFilter.isSeoRelevantUrl
  rw [h]

/-- C10 witness: the empty string and a protocol-relative URL both fail to
parse and are classified `Invalid URL`. -/
theorem claim_C10_witness :
    SeoUrlFilter.isSeoRelevantUrl [] =
      { isRelevant := false, reason := some "Invalid URL" } ∧
    SeoUrlFilter.isSeoRelevantUrl ("//example.com/page/").toList =
      { isRelevant := false, reason := some "Invalid URL" } :=
  ⟨claim_C10 [] rfl, claim_C10 (("//example.com/page/").toList) rfl⟩

/-- C4: when fetching robots.txt throws a network error or returns any non-ok
response, the parser is built from the empty string and `isAllowed` is `true`
for every URL and user agent (fail-open). -/
theorem claim_C4 (outcome : RobotsParser.FetchOutcome) (userAgent url : Str)
    (h : outcome = .networkError ∨ ∃ body, outcome = .response false body) :
    RobotsParser.isAllowed userAgent (RobotsParser.fetchRobots outcome) url = true := by
  rcases h with h | ⟨body, h⟩ <;> subst h <;> exact robotsLib_empty url userAgent

/-- C4 witness: a network error leaves a concrete URL allowed. -/
theorem claim_C4_witness :
    RobotsParser.isAllowed ("MyBot").toList
      (RobotsParser.fetchRobots .networkError) ("https://example.com/a").toList = true :=
  claim_C4 .networkError (("MyBot").toList) (("https://example.com/a").toList) (Or.inl rfl)

/-- C7 counterexample: `normalizeUrl` strips only one trailing slash, so on
`https://a.com/b//` the output still ends in a slash and a second
normalization changes it again — idempotence fails as claimed. -/
theorem claim_C7_counterexample :
    CrawlManager.normalizeUrl ("https://a.com/b//").toList =
      some (("https://a.com/b/").toList) ∧
    CrawlManager.normalizeUrl (("https://a.com/b/").toList) =
      some (("https://a.com/b").toList) ∧
    ("https://a.com/b/").toList ≠ ("https://a.com/b").toList := by
  refine ⟨?_, ?_, ?_⟩
  · rfl
  · rfl
  · decide

/-- C7 (amended): `normalizeUrl` returns `none` exactly on inputs the URL
parser rejects; and whenever the parsed pathname does not end in `//`, the
normalized output is a fixpoint of `normalizeUrl`.  (Unrestricted idempotence
is refuted by the counterexample: only one trailing slash is stripped.) -/
theorem claim_C7 (s : Str) :
    (CrawlManager.normalizeUrl s = none ↔ parseUrl s = none) ∧
    (∀ u, parseUrl s = some u → ¬ ['/', '/'] <:+ u.path →
      ∃ t, CrawlManager.normalizeUrl s = some t ∧
        CrawlManager.normalizeUrl t = some t) := by
  refine ⟨normalizeUrl_none_iff s, ?_⟩
  intro u hu hns
  exact ⟨CrawlManager.normForm u, normalizeUrl_some hu,
    normForm_fixpoint (parseUrl_valid hu) hns⟩

/-- C7 witness: a URL with fragment and unsorted query normalizes to a
fixpoint of `normalizeUrl`. -/
theorem claim_C7_witness :
    ∃ t, CrawlManager.normalizeUrl ("https://A.com/x?b=2&a=1#f").toList = some t ∧
      CrawlManager.normalizeUrl t = some t :=
  (claim_C7 (("https://A.com/x?b=2&a=1#f").toList)).2 _ rfl (by decide)

theorem addToQueue_accepted_bounds (cfg : CrawlManager.CrawlConfig)
    (st : CrawlManager.CrawlState) (url : Str) (depth : Nat)
    (parentUrl : Option Str) (via : CrawlManager.DiscoveredVia) :
    (CrawlManager.addToQueue cfg st url depth parentUrl via).1 = true →
    depth ≤ cfg.settings.max_depth ∧
    (CrawlManager.addToQueue cfg st url depth parentUrl via).2.discovered.card ≤
      cfg.settings.max_pages := by
  unfold CrawlManager.addToQueue
  cases hn : CrawlManager.normalizeUrl url with
  | none =>
    intro h
    simp at h
  | some nu =>
    dsimp only
    split
    next => intro h; simp at h
    next =>
      split
      next hdepth => intro h; simp at h
      next hdepth =>
        split
        next hcard => intro h; simp at h
        next hcard =>
          split
          next => intro h; simp at h
          next =>
            split
            next => intro h; simp at h
            next =>
              split
              next => intro h; simp at h
              next =>
                split
                next => intro h; simp at h
                next =>
                  intro h
                  refine ⟨by omega, ?_⟩
                  dsimp only
                  have hle := Finset.card_insert_le nu st.discovered
                  omega

/-- C3: in any sequence of admissions, every accepted call satisfies the depth
bound, and right after it is added the discovered set respects the page cap. -/
theorem claim_C3 (cfg : CrawlManager.CrawlConfig) (pre : List CrawlManager.AdmitCall)
    (c : CrawlManager.AdmitCall)
    (hacc : (CrawlManager.addToQueue cfg
      (CrawlManager.runAdmits cfg CrawlManager.initialState pre)
      c.url c.depth c.parentUrl c.discoveredVia).1 = true) :
    c.depth ≤ cfg.settings.max_depth ∧
    (CrawlManager.addToQueue cfg
      (CrawlManager.runAdmits cfg CrawlManager.initialState pre)
      c.url c.depth c.parentUrl c.discoveredVia).2.discovered.card ≤
      cfg.settings.max_pages :=
  addToQueue_accepted_bounds cfg _ c.url c.depth c.parentUrl c.discoveredVia hacc

/-- C3 witness: a concrete accepted admission under a permissive
configuration. -/
theorem claim_C3_witness :
    CrawlManager.sampleCall.depth ≤ CrawlManager.sampleConfig.settings.max_depth ∧
    (CrawlManager.addToQueue CrawlManager.sampleConfig
      (CrawlManager.runAdmits CrawlManager.sampleConfig CrawlManager.initialState [])
      CrawlManager.sampleCall.url CrawlManager.sampleCall.depth
      CrawlManager.sampleCall.parentUrl
      CrawlManager.sampleCall.discoveredVia).2.discovered.card ≤
      CrawlManager.sampleConfig.settings.max_pages :=
  claim_C3 CrawlManager.sampleConfig [] CrawlManager.sampleCall (by decide)

theorem splitOrphans_eq (pot : List LinkQualityAnalyzer.PageRow) :
    LinkQualityAnalyzer.splitOrphans pot =
      (pot.filter (fun p => decide (p.discovered_via ≠ "sitemap" ∧ p.discovered_via ≠ "seed")),
       pot.filter (fun p => decide (p.discovered_via = "sitemap"))) := by
  have hgen : ∀ (l : List LinkQualityAnalyzer.PageRow)
      (acc : List LinkQualityAnalyzer.PageRow × List LinkQualityAnalyzer.PageRow),
      l.foldl
        (fun acc page =>
          if page.discovered_via = "sitemap" then (acc.1, acc.2 ++ [page])
          else if page.discovered_via ≠ "seed" then (acc.1 ++ [page], acc.2)
          else acc)
        acc =
      (acc.1 ++ l.filter (fun p => decide (p.discovered_via ≠ "sitemap" ∧ p.discovered_via ≠ "seed")),
       acc.2 ++ l.filter (fun p => decide (p.discovered_via = "sitemap"))) := by
    intro l
    induction l with
    | nil => intro acc; simp
    | cons p ps ih =>
      intro acc
      rw [List.foldl_cons, ih]
      by_cases h1 : p.discovered_via = "sitemap"
      · simp [h1]
      · by_cases h2 : p.discovered_via = "seed"
        · simp [h1, h2]
        · simp [h1, h2]
  unfold LinkQualityAnalyzer.splitOrphans
  rw [hgen]
  simp

/-- C6: every page passing the orphan filter (no incoming internal links, not
the homepage, status in [200, 400)) is classified exclusively: discovered via
sitemap gives `sitemap_only_page` only, via anything but sitemap and seed
gives `orphan_page` only, and a seed page gets neither issue. -/
theorem claim_C6 (pages : List LinkQualityAnalyzer.PageRow)
    (p : LinkQualityAnalyzer.PageRow) (hmem : p ∈ pages)
    (hfilter : p.internal_links_received = 0 ∧ p.page_depth ≠ 0 ∧
      200 ≤ p.status_code ∧ p.status_code < 400) :
    (p.discovered_via = "sitemap" →
      (p, "sitemap_only_page") ∈ LinkQualityAnalyzer.analyzeOrphanPages pages true true ∧
      (p, "orphan_page") ∉ LinkQualityAnalyzer.analyzeOrphanPages pages true true) ∧
    (p.discovered_via ≠ "sitemap" → p.discovered_via ≠ "seed" →
      (p, "orphan_page") ∈ LinkQualityAnalyzer.analyzeOrphanPages pages true true ∧
      (p, "sitemap_only_page") ∉ LinkQualityAnalyzer.analyzeOrphanPages pages true true) ∧
    (p.discovered_via = "seed" →
      (p, "orphan_page") ∉ LinkQualityAnalyzer.analyzeOrphanPages pages true true ∧
      (p, "sitemap_only_page") ∉ LinkQualityAnalyzer.analyzeOrphanPages pages true true) := by
  have hpot : p ∈ LinkQualityAnalyzer.potentialOrphans pages := by
    unfold LinkQualityAnalyzer.potentialOrphans
    exact List.mem_filter.mpr ⟨hmem, by simp only [decide_eq_true_eq]; exact hfilter⟩
  have hform : LinkQualityAnalyzer.analyzeOrphanPages pages true true =
      ((LinkQualityAnalyzer.potentialOrphans pages).filter
        (fun q => decide (q.discovered_via ≠ "sitemap" ∧ q.discovered_via ≠ "seed"))).map
        (fun q => (q, "orphan_page")) ++
      ((LinkQualityAnalyzer.potentialOrphans pages).filter
        (fun q => decide (q.discovered_via = "sitemap"))).map
        (fun q => (q, "sitemap_only_page")) := by
    simp [LinkQualityAnalyzer.analyzeOrphanPages, splitOrphans_eq]
  rw [hform]
  refine ⟨?_, ?_, ?_⟩
  · intro hvia
    constructor
    · refine List.mem_append_right _ ?_
      refine List.mem_map.mpr ⟨p, ?_, rfl⟩
      exact List.mem_filter.mpr ⟨hpot, by simp [hvia]⟩
    · intro hbad
      rcases List.mem_append.mp hbad with hb | hb
      · rcases List.mem_map.mp hb with ⟨q, hq, heq⟩
        injection heq with hq1 hq2
        subst hq1
        have hf := List.mem_filter.mp hq
        simp only [decide_eq_true_eq] at hf
        exact hf.2.1 hvia
      · rcases List.mem_map.mp hb with ⟨q, hq, heq⟩
        injection heq with hq1 hq2
        exact absurd hq2 (by decide)
  · intro hv1 hv2
    constructor
    · refine List.mem_append_left _ ?_
      refine List.mem_map.mpr ⟨p, ?_, rfl⟩
      exact List.mem_filter.mpr ⟨hpot, by simp only [decide_eq_true_eq]; exact ⟨hv1, hv2⟩⟩
    · intro hbad
      rcases List.mem_append.mp hbad with hb | hb
      · rcases List.mem_map.mp hb with ⟨q, hq, heq⟩
        injection heq with hq1 hq2
        exact absurd hq2 (by decide)
      · rcases List.mem_map.mp hb with ⟨q, hq, heq⟩
        injection heq with hq1 hq2
        subst hq1
        have hf := List.mem_filter.mp hq
        simp only [decide_eq_true_eq] at hf
        exact hv1 hf.2
  · intro hvia
    constructor
    · intro hbad
      rcases List.mem_append.mp hbad with hb | hb
      · rcases List.mem_map.mp hb with ⟨q, hq, heq⟩
        injection heq with hq1 hq2
        subst hq1
        have hf := List.mem_filter.mp hq
        simp only [decide_eq_true_eq] at hf
        exact hf.2.2 hvia
      · rcases List.mem_map.mp hb with ⟨q, hq, heq⟩
        injection heq with hq1 hq2
        exact absurd hq2 (by decide)
    · intro hbad
      rcases List.mem_append.mp hbad with hb | hb
      · rcases List.mem_map.mp hb with ⟨q, hq, heq⟩
        injection heq with hq1 hq2
        exact absurd hq2 (by decide)
      · rcases List.mem_map.mp hb with ⟨q, hq, heq⟩
        injection heq with hq1 hq2
        subst hq1
        have hf := List.mem_filter.mp hq
        simp only [decide_eq_true_eq] at hf
        rw [hf.2] at hvia
        exact absurd hvia (by decide)

/-- C6 witness: a concrete sitemap-discovered page with no incoming links is
classified `sitemap_only_page` and not `orphan_page`. -/
theorem claim_C6_witness :
    (LinkQualityAnalyzer.sampleOrphanRow.discovered_via = "sitemap" →
      (LinkQualityAnalyzer.sampleOrphanRow, "sitemap_only_page") ∈
        LinkQualityAnalyzer.analyzeOrphanPages LinkQualityAnalyzer.samplePages true true ∧
      (LinkQualityAnalyzer.sampleOrphanRow, "orphan_page") ∉
        LinkQualityAnalyzer.analyzeOrphanPages LinkQualityAnalyzer.samplePages true true) ∧
    (LinkQualityAnalyzer.sampleOrphanRow.discovered_via ≠ "sitemap" →
      LinkQualityAnalyzer.sampleOrphanRow.discovered_via ≠ "seed" →
      (LinkQualityAnalyzer.sampleOrphanRow, "orphan_page") ∈
        LinkQualityAnalyzer.analyzeOrphanPages LinkQualityAnalyzer.samplePages true true ∧
      (LinkQualityAnalyzer.sampleOrphanRow, "sitemap_only_page") ∉
        LinkQualityAnalyzer.analyzeOrphanPages LinkQualityAnalyzer.samplePages true true) ∧
    (LinkQualityAnalyzer.sampleOrphanRow.discovered_via = "seed" →
      (LinkQualityAnalyzer.sampleOrphanRow, "orphan_page") ∉
        LinkQualityAnalyzer.analyzeOrphanPages LinkQualityAnalyzer.samplePages true true ∧
      (LinkQualityAnalyzer.sampleOrphanRow, "sitemap_only_page") ∉
        LinkQualityAnalyzer.analyzeOrphanPages LinkQualityAnalyzer.samplePages true true) :=
  claim_C6 LinkQualityAnalyzer.samplePages LinkQualityAnalyzer.sampleOrphanRow
    (by decide) (by decide)

/-- C8: the SEO filter is sound on its exclusion tables: a parsed URL whose
lower-cased path has an excluded segment, or ends in a non-HTML extension, or
whose query has an excluded key, is never classified relevant. -/
theorem claim_C8 (url : Str) (parsed : Url) (h : parseUrl url = some parsed)
    (hbad :
      (∃ seg ∈ splitChar '/' (toLowerStr parsed.path),
        seg.length > 0 ∧ seg ∈ SeoUrlFilter.EXCLUDED_PATH_SEGMENTS) ∨
      (∃ ext ∈ SeoUrlFilter.NON_HTML_EXTENSIONS,
        ext.isSuffixOf (toLowerStr parsed.path) = true) ∨
      (∃ param ∈ SeoUrlFilter.EXCLUDED_QUERY_PARAMS,
        ∃ pr ∈ parsed.query.getD [], pr.1 = param)) :
    SeoUrlFilter.isSeoRelevant url = false := by
  unfold SeoUrlFilter.isSeoRelevant SeoUrlFilter.isSeoRelevantUrl
  rw [h]
  dsimp only
  split
  next => rfl
  next hf1 =>
    split
    next => rfl
    next hf2 =>
      split
      next => rfl
      next hf3 =>
        split
        next => rfl
        next hf4 =>
          exfalso
          rcases hbad with ⟨seg, hsegmem, hseglen, hsegex⟩ | ⟨ext, hextmem, hextsuf⟩ |
            ⟨param, hparmem, pr, hprmem, hpreq⟩
          · unfold SeoUrlFilter.hasExcludedPathSegment at hf2
            dsimp only at hf2
            refine List.find?_eq_none.mp hf2 seg
              (List.mem_filter.mpr ⟨hsegmem, by simpa using hseglen⟩) ?_
            exact List.elem_eq_true_of_mem hsegex
          · exact List.find?_eq_none.mp hf1 ext hextmem hextsuf
          · refine List.find?_eq_none.mp hf4 param hparmem ?_
            exact List.any_eq_true.mpr ⟨pr, hprmem, by simp [hpreq]⟩

/-- C8 witness: a URL with the excluded path segment `tag` is filtered out. -/
theorem claim_C8_witness :
    SeoUrlFilter.isSeoRelevant ("https://example.com/tag/widgets").toList = false :=
  claim_C8 (("https://example.com/tag/widgets").toList) _ rfl (by decide)

/-- C2 counterexample: the extractors read the system clock (`new Date()`),
so two runs on identical structured data at different instants give different
records — the article dated 2030-01-01 is `futureDatePublished` in 2020 and
`outdatedContent` in 2033. -/
theorem claim_C2_counterexample :
    PageCrawler.extractArticleData c2Article 1577836800000 ≠
      PageCrawler.extractArticleData c2Article 1988150400000 := by
  decide

/-- C2 (amended): the extracted data fields are deterministic and pure — a
function of the structured data alone; only the validation issue flags that
compare dates against `new Date()` (`futureDatePublished`, `outdatedContent`,
`expiredPrice`) depend on the clock, so records from two runs at different
instants agree on everything but `issues`. -/
theorem claim_C2 (sd : List SObj) (t1 t2 : Int) :
    ((PageCrawler.extractArticleData sd t1).map
      (fun r => (r.hasArticleSchema, r.schemaType, r.articleCount, r.articleData)) =
     (PageCrawler.extractArticleData sd t2).map
      (fun r => (r.hasArticleSchema, r.schemaType, r.articleCount, r.articleData))) ∧
    ((PageCrawler.extractEcommerceData sd t1).map
      (fun r => (r.hasProductSchema, r.productData)) =
     (PageCrawler.extractEcommerceData sd t2).map
      (fun r => (r.hasProductSchema, r.productData))) := by
  constructor
  · unfold PageCrawler.extractArticleData
    split
    · rfl
    · dsimp only
      split
      · rfl
      · rfl
  · unfold PageCrawler.extractEcommerceData
    split
    · rfl
    · dsimp only
      split
      · rfl
      · rfl

/-- C1: navigation failures never reach the retry loop.  `crawlAttempt`
catches every `page.goto` error inside its own try and converts it to an `ok`
error record, so a `net::ERR_CONNECTION_RESET` failure — which the retry
whitelist `isRetryableError` does match — produces one single attempt with no
back-off sleeps; only an exception thrown outside that try
(`context.newPage()`) triggers the documented 2 retries with 1000 ms and
2000 ms delays.  This contradicts the claimed retry-on-transient-network-error
behaviour. -/
theorem claim_C1 :
    PageCrawler.isRetryableError
      ("net::ERR_CONNECTION_RESET at https://x.test/").toList = true ∧
    PageCrawler.crawl ("https://x.test/").toList
      (fun _ => .throwNav ("net::ERR_CONNECTION_RESET at https://x.test/").toList 0) =
      { result := PageCrawler.createErrorResult ("https://x.test/").toList 0
          ("net::ERR_CONNECTION_RESET at https://x.test/").toList,
        attempts := 1, delays := [] } ∧
    PageCrawler.crawl ("https://x.test/").toList
      (fun _ => .newPageFail ("net::ERR_CONNECTION_RESET at https://x.test/").toList) =
      { result := PageCrawler.createErrorResult ("https://x.test/").toList 0
          ("net::ERR_CONNECTION_RESET at https://x.test/").toList,
        attempts := 3, delays := [1000, 2000] } := by
  refine ⟨by decide, ?_, ?_⟩
  · rw [PageCrawler.crawl, PageCrawler.crawlLoop]
    rw [show PageCrawler.crawlAttempt ("https://x.test/").toList
        (.throwNav ("net::ERR_CONNECTION_RESET at https://x.test/").toList 0) =
        Except.ok (PageCrawler.createErrorResult ("https://x.test/").toList 0
          ("net::ERR_CONNECTION_RESET at https://x.test/").toList) from rfl]
  · rw [PageCrawler.crawl, PageCrawler.crawlLoop, PageCrawler.crawlLoop,
      PageCrawler.crawlLoop]
    simp +decide [PageCrawler.crawlAttempt, PageCrawler.maxRetries,
      PageCrawler.retryDelayMs]

theorem parseLoop_inv (domain : Str) (fetchMap : List (Str × Option Str))
    (maxUrls : Nat) (univ : Finset Str) (queue : List Str) (processed : Finset Str)
    (acc : SitemapParser.SitemapParseResult)
    (hq : ∀ x ∈ queue, x ∈ univ)
    (hu : ∀ u body, SitemapParser.fetchSitemap fetchMap u = some body →
      ∀ c ∈ (SitemapParser.parseXml domain body).sitemapIndexUrls, c ∈ univ)
    (h1 : acc.trace.Nodup) (h2 : ∀ x ∈ acc.trace, x ∈ processed)
    (h3 : acc.urls.length ≤ maxUrls) :
    (SitemapParser.parseLoop domain fetchMap maxUrls univ queue processed
      acc hq hu).trace.Nodup ∧
    (SitemapParser.parseLoop domain fetchMap maxUrls univ queue processed
      acc hq hu).urls.length ≤ maxUrls := by
  induction queue, processed, acc, hq, hu using SitemapParser.parseLoop.induct with
  | maxUrls => exact maxUrls
  | case1 processed acc hu hguard hq hq0 =>
    rw [SitemapParser.parseLoop]
    split
    all_goals exact ⟨h1, h3⟩
  | case2 processed acc hu hguard sitemapUrl rest hq hp hq0 ih =>
    have key := ih h1 h2 h3
    rw [SitemapParser.parseLoop]
    split
    all_goals exact key
  | case3 processed acc hu hguard sitemapUrl rest hq hp processed1 hfetch hq0 ih =>
    have knodup : (acc.trace ++ [sitemapUrl]).Nodup := by
      rw [List.nodup_append]
      refine ⟨h1, List.nodup_singleton _, ?_⟩
      intro a ha hb
      rw [List.mem_singleton] at hb
      subst hb
      exact hp (h2 a ha)
    have kmem : ∀ x ∈ acc.trace ++ [sitemapUrl], x ∈ insert sitemapUrl processed := by
      intro x hx
      rcases List.mem_append.mp hx with hx | hx
      · exact Finset.mem_insert_of_mem (h2 x hx)
      · rw [List.mem_singleton] at hx
        subst hx
        exact Finset.mem_insert_self _ _
    have key := ih knodup kmem h3
    rw [SitemapParser.parseLoop]
    split
    all_goals split
    all_goals first
      | exact key
      | (rename_i heq
         rw [hfetch] at heq
         cases heq)
  | case4 processed acc hu hguard sitemapUrl rest hq hp processed1 content hfetch
      parsed children remaining hq0 ih =>
    have knodup : (acc.trace ++ [sitemapUrl]).Nodup := by
      rw [List.nodup_append]
      refine ⟨h1, List.nodup_singleton _, ?_⟩
      intro a ha hb
      rw [List.mem_singleton] at hb
      subst hb
      exact hp (h2 a ha)
    have kmem : ∀ x ∈ acc.trace ++ [sitemapUrl], x ∈ insert sitemapUrl processed := by
      intro x hx
      rcases List.mem_append.mp hx with hx | hx
      · exact Finset.mem_insert_of_mem (h2 x hx)
      · rw [List.mem_singleton] at hx
        subst hx
        exact Finset.mem_insert_self _ _
    have klen : (acc.urls ++ (SitemapParser.parseXml domain content).urls.take
        (maxUrls - acc.urls.length)).length ≤ maxUrls := by
      rw [List.length_append]
      have hlt := List.length_take_le (maxUrls - acc.urls.length)
        (SitemapParser.parseXml domain content).urls
      omega
    have key := ih knodup kmem klen
    rw [SitemapParser.parseLoop]
    split
    all_goals split
    all_goals try (rename_i heq
                   rw [hfetch] at heq
                   cases heq)
    all_goals exact key
  | case5 queue processed acc hq hu hguard =>
    rw [SitemapParser.parseLoop.eq_def]
    split
    next hyes => exact absurd hyes hguard
    next => exact ⟨h1, h3⟩

/-- C9: `SitemapParser.parse` terminates on every finite network (by
construction: the loop is a total function whose well-founded measure is
justified by the processed-sitemaps set); every sitemap URL is processed at
most once (the processing trace has no duplicates), and the collected URLs
never exceed the `maxUrls` cap. -/
theorem claim_C9 (domain : Str) (fetchMap : List (Str × Option Str))
    (maxUrls : Nat) (sitemapUrls : List Str) :
    (SitemapParser.parse domain fetchMap maxUrls sitemapUrls).trace.Nodup ∧
    (SitemapParser.parse domain fetchMap maxUrls sitemapUrls).urls.length ≤ maxUrls := by
  unfold SitemapParser.parse
  exact parseLoop_inv _ _ _ _ _ _ _ _ _
    List.nodup_nil (fun x hx => absurd hx (List.not_mem_nil x)) (Nat.zero_le _)


/-- Every crawler of the fixed AI list is found back (first, by its distinct
lower-case name) by the scan `applyGroup` performs, and its lower-case name is
never `*`. -/
theorem aiCrawlers_find :
    ∀ c ∈ RobotsParser.AI_CRAWLERS,
      RobotsParser.AI_CRAWLERS.find? (fun c2 => toLowerStr c2 == toLowerStr c) = some c ∧
      toLowerStr c ≠ ['*'] := by decide

/-- `applyGroup` evaluated at an AI-crawler key: the verdict is recorded
exactly when the crawler's lower-case name is among the accumulated agents;
at any other key the map is unchanged. -/
theorem applyGroup_at {c : Str}
    (hfind : RobotsParser.AI_CRAWLERS.find?
      (fun c2 => toLowerStr c2 == toLowerStr c) = some c)
    (hstar : toLowerStr c ≠ ['*'])
    (agents : List Str) (v : Bool) (rules : Str → Option Bool) :
    RobotsParser.applyGroup rules agents v c =
      if toLowerStr c ∈ agents then some v else rules c := by
  induction agents generalizing rules with
  | nil => simp [RobotsParser.applyGroup]
  | cons ua rest ih =>
    have hstep : RobotsParser.applyGroup rules (ua :: rest) v =
        RobotsParser.applyGroup
          (if ua ≠ ['*'] then
            match RobotsParser.AI_CRAWLERS.find? (fun c2 => toLowerStr c2 == ua) with
            | some matchedCrawler => RobotsParser.mapSet rules matchedCrawler v
            | none => rules
          else rules) rest v := rfl
    rw [hstep, ih]
    by_cases hm : toLowerStr c ∈ rest
    · rw [if_pos hm, if_pos (List.mem_cons_of_mem _ hm)]
    · rw [if_neg hm]
      by_cases hua : ua = toLowerStr c
      · subst hua
        rw [if_pos (List.mem_cons_self _ _), if_pos hstar, hfind]
        simp [RobotsParser.mapSet]
      · have hrhs : toLowerStr c ∉ ua :: rest := by
          intro h
          rcases List.mem_cons.mp h with h | h
          · exact hua h.symm
          · exact hm h
        rw [if_neg hrhs]
        by_cases hstar2 : ua = ['*']
        · rw [if_neg (not_not_intro hstar2)]
        · rw [if_pos hstar2]
          cases hf : RobotsParser.AI_CRAWLERS.find? (fun c2 => toLowerStr c2 == ua) with
          | none => rfl
          | some mc =>
            have hne : c ≠ mc := by
              intro h
              subst h
              have hb := List.find?_some hf
              have : toLowerStr c = ua := by simpa using hb
              exact hua this.symm
            show RobotsParser.mapSet rules mc v c = rules c
            simp [RobotsParser.mapSet, hne]

/-- One line of the scan: `aiLineStep` and `aiDirStep` keep the same agent
group, and the rules-map entry for the crawler stays equal to the last
recorded verdict. -/
theorem aiStep_pair {c : Str}
    (hfind : RobotsParser.AI_CRAWLERS.find?
      (fun c2 => toLowerStr c2 == toLowerStr c) = some c)
    (hstar : toLowerStr c ≠ ['*'])
    (line : Str) (ag : List Str) (rules : Str → Option Bool) (pv : List Bool)
    (h2 : rules c = pv.getLast?) :
    (RobotsParser.aiLineStep { currentUserAgents := ag, rules := rules } line).currentUserAgents =
      (RobotsParser.aiDirStep c (ag, pv) line).1 ∧
    (RobotsParser.aiLineStep { currentUserAgents := ag, rules := rules } line).rules c =
      (RobotsParser.aiDirStep c (ag, pv) line).2.getLast? := by
  constructor
  · simp only [RobotsParser.aiLineStep, RobotsParser.aiDirStep]
    repeat' split
    all_goals rfl
  · simp only [RobotsParser.aiLineStep, RobotsParser.aiDirStep]
    repeat' split
    all_goals try dsimp only
    all_goals first
      | exact h2
      | (rename_i hmem
         rw [applyGroup_at hfind hstar, if_pos hmem]
         exact (List.getLast?_concat _).symm)
      | (rename_i hmem
         rw [applyGroup_at hfind hstar, if_neg hmem]
         exact h2)

/-- The whole scan: the rules-map entry for the crawler after folding
`aiLineStep` over the lines equals the last verdict of the per-crawler
directive stream. -/
theorem aiFold_pair {c : Str}
    (hfind : RobotsParser.AI_CRAWLERS.find?
      (fun c2 => toLowerStr c2 == toLowerStr c) = some c)
    (hstar : toLowerStr c ≠ ['*'])
    (lines : List Str) :
    ∀ (ag : List Str) (rules : Str → Option Bool) (pv : List Bool),
      rules c = pv.getLast? →
      (lines.foldl RobotsParser.aiLineStep
          { currentUserAgents := ag, rules := rules }).rules c =
        (lines.foldl (RobotsParser.aiDirStep c) (ag, pv)).2.getLast? := by
  induction lines with
  | nil => intro ag rules pv h2; exact h2
  | cons line rest ih =>
    intro ag rules pv h2
    rw [List.foldl_cons, List.foldl_cons]
    have hstep := aiStep_pair hfind hstar line ag rules pv h2
    have heta : RobotsParser.aiLineStep { currentUserAgents := ag, rules := rules } line =
        { currentUserAgents := (RobotsParser.aiDirStep c (ag, pv) line).1,
          rules := (RobotsParser.aiLineStep
            { currentUserAgents := ag, rules := rules } line).rules } := by
      rw [← hstep.1]
    rw [heta]
    exact ih _ _ _ hstep.2

/-- C5 (amended): for every crawler of the fixed AI list, `getAiCrawlerAccess`
returns the LAST verdict recorded for it by the effective root directives
(`Disallow:`/`Allow:` whose path is `/` or empty, applying to every agent of
the accumulated `User-agent` group), `none` when no such directive ever
applies to it. -/
theorem claim_C5 (robotsTxt : Str) (c : Str) (hc : c ∈ RobotsParser.AI_CRAWLERS) :
    RobotsParser.getAiCrawlerAccess robotsTxt c =
      (RobotsParser.aiDirectives robotsTxt c).getLast? := by
  obtain ⟨hfind, hstar⟩ := aiCrawlers_find c hc
  exact aiFold_pair hfind hstar (splitChar (Char.ofNat 10) robotsTxt) [] (fun _ => none) [] rfl

/-- Witness for C5: on `User-agent: GPTBot\nDisallow: /`, the access
recorded for GPTBot is the last (here: only) effective directive verdict. -/
theorem claim_C5_witness :
    ("GPTBot").toList ∈ RobotsParser.AI_CRAWLERS ∧
      RobotsParser.getAiCrawlerAccess (("User-agent: GPTBot\nDisallow: /").toList)
          (("GPTBot").toList) =
        (RobotsParser.aiDirectives (("User-agent: GPTBot\nDisallow: /").toList)
          (("GPTBot").toList)).getLast? :=
  ⟨by decide, claim_C5 _ _ (by decide)⟩

/-- C5 counterexample: two consecutive `User-agent` lines form one group, so
the code records `Disallow: /` for BOTH crawlers; under the claim's scoping
(the scope of a `User-agent` line ends at the next `User-agent` line) the
first crawler is unmentioned. On
`User-agent: GPTBot\nUser-agent: Claude-Web\nDisallow: /` the code classifies
GPTBot as explicitly disallowed while the claim classifies it as unmentioned. -/
theorem claim_C5_counterexample :
    RobotsParser.getAiCrawlerAccess
        (("User-agent: GPTBot\nUser-agent: Claude-Web\nDisallow: /").toList)
        (("GPTBot").toList) = some false ∧
      RobotsParser.claimAiAccess
        (("User-agent: GPTBot\nUser-agent: Claude-Web\nDisallow: /").toList)
        (("GPTBot").toList) = none := by
  exact ⟨by decide, by decide⟩

end Crawler
